import Mathlib

/-!
BARCH codec (`src/barch.cpp`): embedding and verified properties.

The codec turns an 8-bit single-channel raster image into a container made of a
19-byte header, a row emptiness bitmap and an MSB-first bitstream of block tags.

Conventions of the embedding:

* a byte (`std::uint8_t`, `unsigned char`) is a `Nat` below 256;
* a `std::vector` is a `List`; a possibly-null pointer to a buffer is an `Option (List Nat)`;
* an `int` is an `Int`; `int` loop counters, which start at 0 and stay below a bound that is
  an `int`, are natural numbers. The additions and multiplications of `encode` that can
  leave the range of `int` are wrapped to 32 bits in two's complement (`wrapInt`): C++ leaves
  signed overflow undefined, and this is what the compiled code computes. `NoOverflow` is
  the condition under which none of them wraps;
* `std::vector<T>(n, v)` with a negative `int` `n` throws `std::length_error`, the converted
  size exceeding `max_size()`;
* a shift of a `std::uint32_t` by 32 or more is undefined in C++: the shift of `putBits`
  takes its count modulo 32, as the shift instruction of the compiled code does;
* the conversions to `std::uint32_t` and the `std::uint32_t` arithmetic of `decode` are
  written with an explicit `% 2 ^ 32`;
* exceptions are values of `Except`; allocations (`std::vector`, `new`) always succeed;
* a read outside a buffer, which the source leaves undefined, yields 0: it occurs neither in
  `encode` on an image whose buffer holds `width * height` bytes and on which no `int`
  computation overflows, nor in the header checks of `decode`; the row loop of `decode` reads
  `rowIndex[y / 8]` at the offset `rowIndexOffset y`, which the header checks do not bound;
* the array that `decode` obtains from `new unsigned char[total]` is not initialised by the
  source: its content is the parameter `init` of `decode`.
-/

namespace Barch

/-! ## Constants -/

/-- Magic byte `kMagic0 = 'B'`. -/
def kMagic0 : Nat := 0x42
/-- Magic byte `kMagic1 = 'A'`. -/
def kMagic1 : Nat := 0x41
/-- Format version `kFileVersion`. -/
def kFileVersion : Nat := 0x01
/-- Bits per byte, `kBitsPerByte = CHAR_BIT`. -/
def kBitsPerByte : Nat := 8
/-- Pixels per block, `kPixelsPerBlock`. -/
def kPixelsPerBlock : Nat := 4
/-- White pixel `kWhite`. -/
def kWhite : Nat := 0xFF
/-- Black pixel `kBlack`. -/
def kBlack : Nat := 0x00
/-- Padding pixel `kPadPixelForCoding = kWhite`. -/
def kPadPixelForCoding : Nat := kWhite
/-- Index of the most significant bit, `kMSBIndex = kBitsPerByte - 1`. -/
def kMSBIndex : Nat := kBitsPerByte - 1
/-- Size of the container header, `kHeaderSize`. -/
def kHeaderSize : Nat := 19
/-- Offset of the width field, `kOffWidth`. -/
def kOffWidth : Nat := 3
/-- Offset of the height field, `kOffHeight`. -/
def kOffHeight : Nat := 7
/-- Offset of the row-index size field, `kOffRowIndexSize`. -/
def kOffRowIndexSize : Nat := 11
/-- Offset of the bitstream size field, `kOffDataSize`. -/
def kOffDataSize : Nat := 15

/-- The constant `TagBits::WhiteVal`. -/
def TagBits.WhiteVal : Nat := 0b0
/-- The constant `TagBits::WhiteLen`. -/
def TagBits.WhiteLen : Nat := 1
/-- The constant `TagBits::BlackVal`. -/
def TagBits.BlackVal : Nat := 0b10
/-- The constant `TagBits::BlackLen`. -/
def TagBits.BlackLen : Nat := 2
/-- The constant `TagBits::LiterVal`. -/
def TagBits.LiterVal : Nat := 0b11
/-- The constant `TagBits::LiterLen`. -/
def TagBits.LiterLen : Nat := 2

/-- The value of an `int` computation whose exact result is `z`: `z` itself inside the range
of `int`, wrapped to 32 bits in two's complement outside. -/
def wrapInt (z : Int) : Int := (z + 2147483648) % 4294967296 - 2147483648

/-- The template `ceilDiv(a, b) = (a + b - 1) / b`, instantiated at `int`: the sum and the
difference are `int` computations and the division truncates towards zero. -/
def ceilDiv (a b : Int) : Int := Int.tdiv (wrapInt (wrapInt (a + b) - 1)) b

/-! ## Data model -/

/-- The struct `RawImageData` of `barch.hpp`: `int width`, `int height` and the pointer
`unsigned char* data`, which is `none` when null and otherwise the buffer it points to. -/
structure RawImageData where
  width : Int
  height : Int
  data : Option (List Nat)
  deriving DecidableEq, Repr

/-- The exceptions thrown in `encode`: `std::invalid_argument` by its guard, and
`std::length_error` by the constructor of `std::vector` for a negative size. -/
inductive EncodeError where
  | invalidInput
  | lengthError
  deriving DecidableEq, Repr

/-- The `std::runtime_error`s thrown by `decode` and the bit reader, one per message. -/
inductive DecodeError where
  | tooSmall
  | badMagic
  | unsupportedVersion
  | truncated
  | endOfBitstream
  | invalidTag
  deriving DecidableEq, Repr

deriving instance DecidableEq for Except

/-! ## Little-endian fields -/

/-- The function `writeLE32`: the four bytes `v >> (i * 8)` for `i = 0..3`, each converted to
`std::uint8_t`, appended to `buf`. -/
def writeLE32 (buf : List Nat) (v : Nat) : List Nat :=
  (List.range 4).foldl (fun b i => b ++ [(v >>> (i * 8)) % 256]) buf

/-- The function `readLE32` at the pointer `p + off`: the bitwise or of `p[i] << (i * 8)`. -/
def readLE32 (p : List Nat) (off : Nat) : Nat :=
  (List.range 4).foldl (fun v i => (v ||| (p.getD (off + i) 0 <<< (i * 8))) % 2 ^ 32) 0

/-! ## Row emptiness -/

/-- The byte `data[off]` of the pixel buffer; outside the buffer, where the source leaves the
read undefined, 0. -/
def readPixel (data : List Nat) (off : Int) : Nat :=
  if off < 0 then 0 else data.getD off.toNat 0

/-- The function `isRowEmpty(row, width)` with `row = data + off`: no pixel of the row differs
from `kWhite`. -/
def isRowEmpty (data : List Nat) (off width : Int) : Bool :=
  (List.range width.toNat).all (fun i => readPixel data (off + i) == kWhite)

/-! ## Bit writer -/

/-- The struct `BitWriter`: the bytes completed so far, the byte being filled and the number
of bits already placed in it. -/
structure BitWriter where
  out : List Nat := []
  cur : Nat := 0
  bitpos : Nat := 0
  deriving DecidableEq, Repr

namespace BitWriter

/-- The method `putBit(b)`: or the low bit of `b` into position `kMSBIndex - bitpos` of `cur`
and push `cur` once it holds eight bits. -/
def putBit (bw : BitWriter) (b : Nat) : BitWriter :=
  let cur := (bw.cur ||| (((b &&& 1) % 256) <<< (kMSBIndex - bw.bitpos))) % 256
  if bw.bitpos + 1 = kBitsPerByte then
    BitWriter.mk (bw.out ++ [cur]) 0 0
  else
    BitWriter.mk bw.out cur (bw.bitpos + 1)

/-- The method `putBits(v, n)`: `putBit((v >> i) & 1)` for `i = n - 1` down to `0`, `v` being
converted to `std::uint32_t` and the shift taking its count modulo 32. A call with a negative
`n` runs no iteration, like `n = 0`. -/
def putBits (bw : BitWriter) (v n : Nat) : BitWriter :=
  (List.range n).reverse.foldl (fun w i => w.putBit (((v % 2 ^ 32) >>> (i % 32)) &&& 1)) bw

/-- The method `putByte(b)`: `putBit((b >> i) & 1)` for `i = kMSBIndex` down to `0`. -/
def putByte (bw : BitWriter) (b : Nat) : BitWriter :=
  (List.range (kMSBIndex + 1)).reverse.foldl (fun w i => w.putBit ((b >>> i) &&& 1)) bw

/-- The method `finish()`: push the partial byte if it holds a bit, return the buffer. -/
def finish (bw : BitWriter) : List Nat :=
  if bw.bitpos ≠ 0 then bw.out ++ [bw.cur] else bw.out

end BitWriter

/-! ## Encoder -/

/-- Body of the first loop of `encode`: with `row = img.data + y * W`,
`rowIndex[y / 8] |= 1u << (y % 8)` when row `y` is empty, `nonEmpty[y] = true` otherwise. The
state is the pair `(rowIndex, nonEmpty)`. -/
def rowIndexStep (data : List Nat) (W : Int) (st : List Nat × List Bool) (y : Nat) :
    List Nat × List Bool :=
  let empty := isRowEmpty data (wrapInt (y * W)) W
  if empty then
    (st.1.set (y / kBitsPerByte)
        ((st.1.getD (y / kBitsPerByte) 0 ||| (1 <<< (y % kBitsPerByte))) % 256),
      st.2)
  else
    (st.1, st.2.set y true)

/-- First loop of `encode`, from `rowIndex(rowIndexBytes, 0)` and `nonEmpty(H, false)`. -/
def buildRowIndex (data : List Nat) (W H rowIndexBytes : Int) : List Nat × List Bool :=
  (List.range H.toNat).foldl (rowIndexStep data W)
    (List.replicate rowIndexBytes.toNat 0, List.replicate H.toNat false)

/-- The pixel `px[k]` of group `g` in the row at `data + off`:
`(x < W) ? row[x] : kPadPixelForCoding` with `x = g * kPixelsPerBlock + k`. -/
def groupPixel (data : List Nat) (off W : Int) (g k : Nat) : Nat :=
  let x := wrapInt (g * kPixelsPerBlock + k)
  if x < W then readPixel data (off + x) else kPadPixelForCoding

/-- Body of the group loop of `encode`: classify the four pixels and emit the tag, followed
by the four bytes for a literal group. -/
def encodeGroup (data : List Nat) (off W : Int) (bw : BitWriter) (g : Nat) : BitWriter :=
  let px0 := groupPixel data off W g 0
  let px1 := groupPixel data off W g 1
  let px2 := groupPixel data off W g 2
  let px3 := groupPixel data off W g 3
  let allWhite := px0 == kWhite && px1 == kWhite && px2 == kWhite && px3 == kWhite
  let allBlack := px0 == kBlack && px1 == kBlack && px2 == kBlack && px3 == kBlack
  if allWhite then
    bw.putBits TagBits.WhiteVal TagBits.WhiteLen
  else if allBlack then
    bw.putBits TagBits.BlackVal TagBits.BlackLen
  else
    ((((bw.putBits TagBits.LiterVal TagBits.LiterLen).putByte px0).putByte px1).putByte
      px2).putByte px3

/-- Body of the second row loop of `encode`: rows with `nonEmpty[y]` false are skipped, the
others are encoded group by group, `groups = ceilDiv(W, kPixelsPerBlock)` of them, none when
`groups` is not positive. -/
def encodeRow (data : List Nat) (W : Int) (nonEmpty : List Bool) (bw : BitWriter) (y : Nat) :
    BitWriter :=
  if !nonEmpty.getD y false then bw
  else (List.range (ceilDiv W kPixelsPerBlock).toNat).foldl
    (encodeGroup data (wrapInt (y * W)) W) bw

/-- Second loop of `encode` and `bw.finish()`: the bitstream. -/
def encodeBitstream (data : List Nat) (W H : Int) (nonEmpty : List Bool) : List Nat :=
  ((List.range H.toNat).foldl (encodeRow data W nonEmpty) (BitWriter.mk [] 0 0)).finish

/-- Framing at the end of `encode`: magic, version, the four fields converted to
`std::uint32_t` and written little-endian, then the row index and the bitstream. `W` and `H`
are the positive `int`s `img.width` and `img.height`. -/
def frame (W H : Nat) (rowIndex bitstream : List Nat) : List Nat :=
  let file := [kMagic0, kMagic1, kFileVersion]
  let file := writeLE32 file (W % 2 ^ 32)
  let file := writeLE32 file (H % 2 ^ 32)
  let file := writeLE32 file (rowIndex.length % 2 ^ 32)
  let file := writeLE32 file (bitstream.length % 2 ^ 32)
  file ++ rowIndex ++ bitstream

/-- The function `barch::encode`. The constructor of `rowIndex` throws when
`rowIndexBytes = ceilDiv(H, kBitsPerByte)` is negative. -/
def encode (img : RawImageData) : Except EncodeError (List Nat) :=
  match img.data with
  | none => .error .invalidInput
  | some data =>
    if img.width ≤ 0 ∨ img.height ≤ 0 then .error .invalidInput
    else
      let W := img.width
      let H := img.height
      let rowIndexBytes := ceilDiv H kBitsPerByte
      if rowIndexBytes < 0 then .error .lengthError
      else
        let idx := buildRowIndex data W H rowIndexBytes
        let bitstream := encodeBitstream data W H idx.2
        .ok (frame W.toNat H.toNat idx.1 bitstream)

/-! ## Bit reader -/

/-- The struct `BitReader`: the slice `p` of `n` bytes, the byte index and the bit cursor. -/
structure BitReader where
  p : List Nat
  n : Nat
  idx : Nat := 0
  bitpos : Nat := 0
  deriving DecidableEq, Repr

namespace BitReader

/-- The method `getBit()`: throws at the end of the slice, otherwise returns bit
`kMSBIndex - bitpos` of `p[idx]` and advances. -/
def getBit (br : BitReader) : Except DecodeError (Nat × BitReader) :=
  if br.idx ≥ br.n then .error .endOfBitstream
  else
    let b := (br.p.getD br.idx 0 >>> (kMSBIndex - br.bitpos)) &&& 1
    if br.bitpos + 1 = kBitsPerByte then
      .ok (b, BitReader.mk br.p br.n (br.idx + 1) 0)
    else
      .ok (b, BitReader.mk br.p br.n br.idx (br.bitpos + 1))

/-- The method `getBits(k)`: `v = (v << 1) | getBit()`, repeated `k` times from `v = 0`. -/
def getBits (br : BitReader) (k : Nat) : Except DecodeError (Nat × BitReader) :=
  (List.range k).foldlM
    (fun (st : Nat × BitReader) _ => do
      let (b, br1) ← st.2.getBit
      pure (((st.1 <<< 1) ||| b) % 2 ^ 32, br1))
    (0, br)

/-- The method `getByte()`: `getBits(kBitsPerByte)` converted to `std::uint8_t`. -/
def getByte (br : BitReader) : Except DecodeError (Nat × BitReader) := do
  let (v, br1) ← br.getBits kBitsPerByte
  pure (v % 256, br1)

end BitReader

/-! ## Decoder -/

/-- The call `std::memset(dst + off, v, n)` on the memory `mem`. -/
def memset (mem : Nat → Nat) (off v n : Nat) : Nat → Nat :=
  fun i => if off ≤ i ∧ i < off + n then v else mem i

/-- The call `std::memcpy(dst + off, p, n)` on the memory `mem`. -/
def memcpy (mem : Nat → Nat) (off : Nat) (p : List Nat) (n : Nat) : Nat → Nat :=
  fun i => if off ≤ i ∧ i < off + n then p.getD (i - off) 0 else mem i

/-- State of the row loop of `decode`: the contents of `outData` and the bit reader. -/
structure DecState where
  mem : Nat → Nat
  br : BitReader

/-- How control leaves a statement sequence of a loop body: by reaching its end or by a
`continue`. -/
inductive Flow where
  | fallThrough
  | continue_
  deriving DecidableEq, Repr

/-- The loop `while (written < W)` of `decode` for the row at `outData + off`: read a tag,
fill or copy `n = min(kPixelsPerBlock, W - written)` pixels. Every iteration writes at least
one pixel, so `fuel = W` iterations are enough. -/
def decodeGroups (W off : Nat) : Nat → Nat → DecState → Except DecodeError DecState
  | 0, _, st => .ok st
  | fuel + 1, written, st =>
    if written < W then
      (do
      let (b0, br1) ← st.br.getBit
      let (code, br2) ←
        if b0 = 0 then (pure (0, br1) : Except DecodeError (Nat × BitReader))
        else do
          let (b1, br2) ← br1.getBit
          pure (2 ||| b1, br2)
      let n := min kPixelsPerBlock (W - written)
      match code with
      | 0 =>
        let mem1 := memset st.mem (off + written) kWhite n
        decodeGroups W off fuel (written + n) (DecState.mk mem1 br2)
      | 2 =>
        let mem1 := memset st.mem (off + written) kBlack n
        decodeGroups W off fuel (written + n) (DecState.mk mem1 br2)
      | 3 => do
        let (p0, br3) ← br2.getByte
        let (p1, br4) ← br3.getByte
        let (p2, br5) ← br4.getByte
        let (p3, br6) ← br5.getByte
        let mem1 := memcpy st.mem (off + written) [p0, p1, p2, p3] n
        decodeGroups W off fuel (written + n) (DecState.mk mem1 br6)
      | _ => .error .invalidTag)
    else .ok st

/-- The first statements of the body of the row loop of `decode`:
`if (empty) std::memset(row, kWhite, W); continue;`. The `continue` is not part of the `if`,
so control leaves the body here whether the row is empty or not. -/
def decodeRowHead (rowIndex : List Nat) (W : Nat) (st : DecState) (y : Nat) : DecState × Flow :=
  let empty := ((rowIndex.getD (y / kBitsPerByte) 0 >>> (y % kBitsPerByte)) &&& 1) ≠ 0
  let off := (y * W) % 2 ^ 32
  let st1 := if empty then DecState.mk (memset st.mem off kWhite W) st.br else st
  (st1, Flow.continue_)

/-- The body of the row loop of `decode`: the statements after the `continue` run only if
control falls through `decodeRowHead`. -/
def decodeRow (rowIndex : List Nat) (W : Nat) (st : DecState) (y : Nat) :
    Except DecodeError DecState :=
  match decodeRowHead rowIndex W st y with
  | (st1, Flow.continue_) => .ok st1
  | (st1, Flow.fallThrough) => decodeGroups W ((y * W) % 2 ^ 32) W 0 st1

/-- The conversion `static_cast<int>(v)` of a `std::uint32_t`. -/
def toInt32 (v : Nat) : Int :=
  if v % 2 ^ 32 < 2 ^ 31 then ((v % 2 ^ 32 : Nat) : Int) else ((v % 2 ^ 32 : Nat) : Int) - 2 ^ 32

/-- The function `barch::decode(bytes, size)`: `bytes` is `none` for a null pointer and
otherwise the `size` bytes it points to. `init` is the content of the array returned by
`new unsigned char[total]`, which C++ leaves uninitialised. `std::size_t` has 64 bits. -/
def decode (init : Nat → Nat) (bytes : Option (List Nat)) : Except DecodeError RawImageData :=
  match bytes with
  | none => .error .tooSmall
  | some buf =>
    let size := buf.length
    if size < kHeaderSize then .error .tooSmall
    else if buf.getD 0 0 ≠ kMagic0 ∨ buf.getD 1 0 ≠ kMagic1 then .error .badMagic
    else if buf.getD 2 0 ≠ kFileVersion then .error .unsupportedVersion
    else
      let W := readLE32 buf kOffWidth
      let H := readLE32 buf kOffHeight
      let rowIndexByte := readLE32 buf kOffRowIndexSize
      let dataBytes := readLE32 buf kOffDataSize
      let need := (kHeaderSize + rowIndexByte + dataBytes) % 2 ^ 64
      if size < need then .error .truncated
      else
        let rowIndex := buf.drop kHeaderSize
        let data := rowIndex.drop rowIndexByte
        let total := (W * H) % 2 ^ 64
        let st0 : DecState := DecState.mk init (BitReader.mk data dataBytes 0 0)
        match (List.range H).foldlM (decodeRow rowIndex W) st0 with
        | .error e => .error e
        | .ok st =>
          .ok (RawImageData.mk (toInt32 W) (toInt32 H) (some ((List.range total).map st.mem)))

/-! ## Specification-side definitions

The definitions below follow the words of the specification; the theorems compare them
with the embedding of the source above. -/

/-- A valid image: a non-null buffer of `width * height` bytes with `width > 0` and
`height > 0`, the two dimensions being values of the C++ type `int`. -/
def Valid (img : RawImageData) : Prop :=
  match img.data with
  | none => False
  | some data =>
    0 < img.width ∧ 0 < img.height ∧ img.width < 2 ^ 31 ∧ img.height < 2 ^ 31 ∧
      (data.length : Int) = img.width * img.height ∧ ∀ p ∈ data, p < 256

instance (img : RawImageData) : Decidable (Valid img) := by
  unfold Valid
  split <;> infer_instance

/-- No `int` computation of `encode` leaves the range of `int`: `H + 8` in
`ceilDiv(H, kBitsPerByte)`, `W + 4` in `ceilDiv(W, kPixelsPerBlock)` and the row offsets
`y * W` for `y < H` stay at most `INT_MAX = 2 ^ 31 - 1`. -/
def NoOverflow (img : RawImageData) : Prop :=
  img.height + 8 < 2147483648 ∧ img.width + 4 < 2147483648 ∧
    (img.height - 1) * img.width < 2147483648

instance (img : RawImageData) : Decidable (NoOverflow img) := by
  unfold NoOverflow
  infer_instance

/-- The pixels of `img`, the empty list for a null buffer. -/
def RawImageData.pixels (img : RawImageData) : List Nat := img.data.getD []

/-- Row `y` of the image: the `width` pixels starting at `y * width`. -/
def RawImageData.row (img : RawImageData) (y : Nat) : List Nat :=
  (img.pixels.drop (y * img.width.toNat)).take img.width.toNat

/-- A row is entirely white when every pixel of it equals 255. -/
def rowWhite (row : List Nat) : Bool := row.all (fun p => p == 255)

/-- The value of a byte given by at most eight bits, most significant first, the missing low
bits being zero. -/
def bitsToByte (bs : List Bool) : Nat :=
  ((List.range 8).map (fun k => if bs.getD k false then 2 ^ (7 - k) else 0)).sum

/-- MSB-first packing of a bit sequence into bytes, the last byte zero-padded. -/
def packMSB : List Bool → List Nat
  | b0 :: b1 :: b2 :: b3 :: b4 :: b5 :: b6 :: b7 :: rest =>
    bitsToByte [b0, b1, b2, b3, b4, b5, b6, b7] :: packMSB rest
  | [] => []
  | bs => [bitsToByte bs]

/-- The eight bits of a byte, most significant first. -/
def byteBits (p : Nat) : List Bool := (List.range 8).map (fun k => p.testBit (7 - k))

/-- Group `g` of a row: its pixels `4 g .. 4 g + 3`, a short final group being completed
with 255. -/
def specGroup (row : List Nat) (g : Nat) : List Nat :=
  (List.range 4).map (fun k => row.getD (4 * g + k) 255)

/-- The bits of one group: `0` if the four pixels are all 255, `10` if they are all 0,
otherwise `11` followed by the four pixel bytes in order. -/
def specGroupBits (px : List Nat) : List Bool :=
  if px.all (fun p => p == 255) then [false]
  else if px.all (fun p => p == 0) then [true, false]
  else [true, true] ++ (px.map byteBits).flatten

/-- The bits of one row: none for an entirely white row, otherwise those of its
`ceil(width / 4)` groups from left to right. -/
def specRowBits (row : List Nat) : List Bool :=
  if rowWhite row then []
  else ((List.range ((row.length + 3) / 4)).map (fun g => specGroupBits (specGroup row g))).flatten

/-- The bits of the whole image: those of its rows in increasing `y`. -/
def specBits (img : RawImageData) : List Bool :=
  ((List.range img.height.toNat).map (fun y => specRowBits (img.row y))).flatten

/-! ## Example images -/

/-- The 4x1 image with pixels `[0, 255, 10, 200]`. -/
def mixedRow : RawImageData := ⟨4, 1, some [0, 255, 10, 200]⟩

/-- The 1x1 image whose pixel is black. -/
def blackPixel : RawImageData := ⟨1, 1, some [0]⟩

/-- The image of width 1 and height `H` whose pixels are all black. -/
def blackColumn (H : Nat) : RawImageData := ⟨1, H, some (List.replicate H 0)⟩

/-- The image of width 1 and height `H` whose pixels all equal `p`. -/
def uniformColumn (H p : Nat) : RawImageData := ⟨1, H, some (List.replicate H p)⟩

/-- The image of width `W` and height 1 whose pixels are all black. -/
def blackRow (W : Nat) : RawImageData := ⟨W, 1, some (List.replicate W 0)⟩

/-- The image of width `W` and height `H` whose pixels all equal `p`. -/
def uniformImage (W H p : Nat) : RawImageData := ⟨W, H, some (List.replicate (W * H) p)⟩

/-- The little-endian bytes of a 32-bit field. -/
def le32 (v : Nat) : List Nat := [v % 256, v / 256 % 256, v / 65536 % 256, v / 16777216 % 256]

/-! ## Proof devices and example files -/

/-- Writing a list of bits with `putBit`. -/
def BitWriter.writeBits (bw : BitWriter) (bits : List Bool) : BitWriter :=
  bits.foldl (fun w b => w.putBit b.toNat) bw

/-- A header declaring width 4, height 1, one row-index byte and five bitstream bytes,
followed by the row-index byte only. -/
def truncatedFile : List Nat :=
  [0x42, 0x41, 0x01, 4, 0, 0, 0, 1, 0, 0, 0, 1, 0, 0, 0, 5, 0, 0, 0, 0]

/-- The encoding of `blackPixel`. -/
def blackPixelFile : List Nat :=
  [0x42, 0x41, 0x01, 1, 0, 0, 0, 1, 0, 0, 0, 1, 0, 0, 0, 5, 0, 0, 0, 0x00,
    0xC0, 0x3F, 0xFF, 0xFF, 0xC0]

/-- A well-formed header for a 1x1 image with one row-index byte, whose bit 0 is clear, and
an empty bitstream. -/
def exhaustedFile : List Nat :=
  [0x42, 0x41, 0x01, 1, 0, 0, 0, 1, 0, 0, 0, 1, 0, 0, 0, 0, 0, 0, 0, 0x00]

/-- A 20-byte file whose version byte is 2. -/
def versionTwoFile : List Nat :=
  [0x42, 0x41, 0x02, 1, 0, 0, 0, 1, 0, 0, 0, 1, 0, 0, 0, 0, 0, 0, 0, 0x01]

/-- The 1x1 image whose pixel is 7. -/
def grayPixel : RawImageData := ⟨1, 1, some [7]⟩

/-- The encoding of `grayPixel`. -/
def grayPixelFile : List Nat :=
  [0x42, 0x41, 0x01, 1, 0, 0, 0, 1, 0, 0, 0, 1, 0, 0, 0, 5, 0, 0, 0, 0x00,
    0xC1, 0xFF, 0xFF, 0xFF, 0xC0]

/-- The bits of `n` Black tags. -/
def blackTags (n : Nat) : List Bool := (List.replicate n [true, false]).flatten

/-- The all-black 8x1 image. -/
def black8x1 : RawImageData := ⟨8, 1, some (List.replicate 8 0)⟩

/-- The all-black 5x1 image. -/
def black5x1 : RawImageData := ⟨5, 1, some (List.replicate 5 0)⟩

/-- A call of a method of `BitWriter`. -/
inductive WriterCall where
  | putBit (b : Nat)
  | putBits (v n : Nat)
  | putByte (b : Nat)
  deriving DecidableEq, Repr

/-- The effect of one call on the writer. -/
def WriterCall.run (bw : BitWriter) : WriterCall → BitWriter
  | .putBit b => bw.putBit b
  | .putBits v n => bw.putBits v n
  | .putByte b => bw.putByte b

/-- A sequence of calls on a fresh `BitWriter`, followed by `finish()`. -/
def runCalls (calls : List WriterCall) : List Nat :=
  (calls.foldl WriterCall.run (BitWriter.mk [] 0 0)).finish

/-- The bits that one call writes: the low bit of `b` for `putBit(b)`, the `n` lowest bits of
`v`, most significant first, for `putBits(v, n)`, the eight bits of `b`, most significant
first, for `putByte(b)`. -/
def WriterCall.bits : WriterCall → List Bool
  | .putBit b => [b.testBit 0]
  | .putBits v n => (List.range n).reverse.map (fun i => v.testBit i)
  | .putByte b => (List.range 8).reverse.map (fun i => b.testBit i)

/-- The bit sequence written by a sequence of calls. -/
def writtenBits (calls : List WriterCall) : List Bool :=
  (calls.map WriterCall.bits).flatten

/-- The 5x1 image with pixels `[10, 20, 30, 40, 50]`. -/
def sampleFive : RawImageData := ⟨5, 1, some [10, 20, 30, 40, 50]⟩

/-- The encoding of `sampleFive`. -/
def sampleFiveFile : List Nat :=
  [0x42, 0x41, 0x01, 5, 0, 0, 0, 1, 0, 0, 0, 1, 0, 0, 0, 9, 0, 0, 0, 0x00,
    194, 133, 7, 138, 51, 47, 255, 255, 240]

/-- The bits of a Literal group: the tag `11` followed by the four pixel bytes in order. -/
def literalBits (px : List Nat) : List Bool := [true, true] ++ (px.map byteBits).flatten

/-- The header and row index of the encoding of a 5x1 image without white row. -/
def fiveHeader : List Nat :=
  [0x42, 0x41, 0x01, 5, 0, 0, 0, 1, 0, 0, 0, 1, 0, 0, 0, 9, 0, 0, 0, 0x00]

/-- A file declaring width 1, height 9, one row-index byte `00` and one bitstream byte
`00`. -/
def nineRowsFileA : List Nat :=
  [0x42, 0x41, 0x01, 1, 0, 0, 0, 9, 0, 0, 0, 1, 0, 0, 0, 1, 0, 0, 0, 0x00, 0x00]

/-- The file `nineRowsFileA` with the bitstream byte replaced by `01`. -/
def nineRowsFileB : List Nat :=
  [0x42, 0x41, 0x01, 1, 0, 0, 0, 9, 0, 0, 0, 1, 0, 0, 0, 1, 0, 0, 0, 0x00, 0x01]

/-- Offset in `bytes` of the byte `rowIndex[y / kBitsPerByte]` that the row loop of `decode`
reads for row `y`, `rowIndex` being the pointer `bytes + kHeaderSize`. -/
def rowIndexOffset (y : Nat) : Nat := kHeaderSize + y / kBitsPerByte

/-- A 19-byte file declaring width 1, height 1, no row-index byte and no bitstream byte. -/
def overreadFile : List Nat :=
  [0x42, 0x41, 0x01, 1, 0, 0, 0, 1, 0, 0, 0, 0, 0, 0, 0, 0, 0, 0, 0]

/-! # Theorems -/

/-! ## Bit writer lemmas -/

theorem BitWriter.writeBits_append (bw : BitWriter) (xs ys : List Bool) :
    bw.writeBits (xs ++ ys) = (bw.writeBits xs).writeBits ys := by
  simp [BitWriter.writeBits, List.foldl_append]

theorem BitWriter.putBit_onto (out : List Nat) (c p b : Nat) :
    (BitWriter.mk out c p).putBit b =
      BitWriter.mk (out ++ ((BitWriter.mk [] c p).putBit b).out)
        ((BitWriter.mk [] c p).putBit b).cur ((BitWriter.mk [] c p).putBit b).bitpos := by
  unfold BitWriter.putBit
  split <;> simp

theorem BitWriter.writeBits_onto (bits : List Bool) :
    ∀ (out : List Nat) (c p : Nat), (BitWriter.mk out c p).writeBits bits =
      BitWriter.mk (out ++ ((BitWriter.mk [] c p).writeBits bits).out)
        ((BitWriter.mk [] c p).writeBits bits).cur
        ((BitWriter.mk [] c p).writeBits bits).bitpos := by
  induction bits with
  | nil => intro out c p; simp [BitWriter.writeBits]
  | cons b bs ih =>
    intro out c p
    have h1 : (BitWriter.mk out c p).writeBits (b :: bs) =
        ((BitWriter.mk out c p).putBit b.toNat).writeBits bs := rfl
    have h2 : (BitWriter.mk [] c p).writeBits (b :: bs) =
        ((BitWriter.mk [] c p).putBit b.toNat).writeBits bs := rfl
    rw [h1, h2, BitWriter.putBit_onto, ih]
    rw [ih ((BitWriter.mk [] c p).putBit b.toNat).out]
    simp [List.append_assoc]

set_option maxRecDepth 100000 in
theorem BitWriter.writeBits_byte_nil : ∀ b0 b1 b2 b3 b4 b5 b6 b7 : Bool,
    (BitWriter.mk [] 0 0).writeBits [b0, b1, b2, b3, b4, b5, b6, b7] =
      BitWriter.mk [bitsToByte [b0, b1, b2, b3, b4, b5, b6, b7]] 0 0 := by
  decide

theorem BitWriter.writeBits_byte (out : List Nat) (b0 b1 b2 b3 b4 b5 b6 b7 : Bool) :
    (BitWriter.mk out 0 0).writeBits [b0, b1, b2, b3, b4, b5, b6, b7] =
      BitWriter.mk (out ++ [bitsToByte [b0, b1, b2, b3, b4, b5, b6, b7]]) 0 0 := by
  rw [BitWriter.writeBits_onto, BitWriter.writeBits_byte_nil]

set_option maxRecDepth 100000 in
theorem BitWriter.finish_short_nil :
    (∀ b0 : Bool, ((BitWriter.mk [] 0 0).writeBits [b0]).finish = [bitsToByte [b0]]) ∧
    (∀ b0 b1 : Bool, ((BitWriter.mk [] 0 0).writeBits [b0, b1]).finish = [bitsToByte [b0, b1]]) ∧
    (∀ b0 b1 b2 : Bool,
      ((BitWriter.mk [] 0 0).writeBits [b0, b1, b2]).finish = [bitsToByte [b0, b1, b2]]) ∧
    (∀ b0 b1 b2 b3 : Bool,
      ((BitWriter.mk [] 0 0).writeBits [b0, b1, b2, b3]).finish =
        [bitsToByte [b0, b1, b2, b3]]) ∧
    (∀ b0 b1 b2 b3 b4 : Bool,
      ((BitWriter.mk [] 0 0).writeBits [b0, b1, b2, b3, b4]).finish =
        [bitsToByte [b0, b1, b2, b3, b4]]) ∧
    (∀ b0 b1 b2 b3 b4 b5 : Bool,
      ((BitWriter.mk [] 0 0).writeBits [b0, b1, b2, b3, b4, b5]).finish =
        [bitsToByte [b0, b1, b2, b3, b4, b5]]) ∧
    (∀ b0 b1 b2 b3 b4 b5 b6 : Bool,
      ((BitWriter.mk [] 0 0).writeBits [b0, b1, b2, b3, b4, b5, b6]).finish =
        [bitsToByte [b0, b1, b2, b3, b4, b5, b6]]) := by
  decide

theorem BitWriter.finish_onto (bits : List Bool) (out : List Nat) :
    ((BitWriter.mk out 0 0).writeBits bits).finish =
      out ++ ((BitWriter.mk [] 0 0).writeBits bits).finish := by
  rw [BitWriter.writeBits_onto]
  unfold BitWriter.finish
  split <;> simp

theorem BitWriter.finish_writeBits (bits : List Bool) :
    ∀ out : List Nat, ((BitWriter.mk out 0 0).writeBits bits).finish = out ++ packMSB bits := by
  induction bits using packMSB.induct with
  | case1 b0 b1 b2 b3 b4 b5 b6 b7 rest ih =>
    intro out
    have h : (b0 :: b1 :: b2 :: b3 :: b4 :: b5 :: b6 :: b7 :: rest) =
        [b0, b1, b2, b3, b4, b5, b6, b7] ++ rest := rfl
    rw [h, BitWriter.writeBits_append, BitWriter.writeBits_byte, ih]
    simp [packMSB]
  | case2 => intro out; simp [BitWriter.writeBits, BitWriter.finish, packMSB]
  | case3 bs h1 h2 =>
    intro out
    rw [BitWriter.finish_onto]
    obtain ⟨f1, f2, f3, f4, f5, f6, f7⟩ := BitWriter.finish_short_nil
    match bs, h1, h2 with
    | [], _, h2 => exact absurd rfl h2
    | [b0], _, _ => rw [f1]; rfl
    | [b0, b1], _, _ => rw [f2]; rfl
    | [b0, b1, b2], _, _ => rw [f3]; rfl
    | [b0, b1, b2, b3], _, _ => rw [f4]; rfl
    | [b0, b1, b2, b3, b4], _, _ => rw [f5]; rfl
    | [b0, b1, b2, b3, b4, b5], _, _ => rw [f6]; rfl
    | [b0, b1, b2, b3, b4, b5, b6], _, _ => rw [f7]; rfl
    | b0 :: b1 :: b2 :: b3 :: b4 :: b5 :: b6 :: b7 :: rest, h1, _ =>
      exact absurd rfl (h1 b0 b1 b2 b3 b4 b5 b6 b7 rest)

theorem shiftRight_and_one (v i : Nat) : (v >>> i) &&& 1 = (v.testBit i).toNat := by
  rw [Nat.and_one_is_mod, Nat.shiftRight_eq_div_pow, Nat.toNat_testBit]

theorem shiftRight_mask_and_one (v i : Nat) (hi : i < 32) :
    ((v % 2 ^ 32) >>> (i % 32)) &&& 1 = (v.testBit i).toNat := by
  rw [Nat.mod_eq_of_lt hi, shiftRight_and_one, Nat.testBit_mod_two_pow]
  simp [hi]

theorem BitWriter.putBits_eq (bw : BitWriter) (v n : Nat) (hn : n ≤ 32) :
    bw.putBits v n = bw.writeBits ((List.range n).reverse.map (fun i => v.testBit i)) := by
  unfold BitWriter.putBits BitWriter.writeBits
  rw [List.foldl_map]
  apply List.foldl_ext
  intro w i hi
  have hi2 : i < 32 := by
    have := List.mem_range.mp (List.mem_reverse.mp hi)
    omega
  rw [shiftRight_mask_and_one v i hi2]

theorem BitWriter.putByte_eq (bw : BitWriter) (b : Nat) :
    bw.putByte b = bw.writeBits (byteBits b) := by
  have h1 : (List.range (kMSBIndex + 1)).reverse = [7, 6, 5, 4, 3, 2, 1, 0] := by decide
  have h2 : List.range 8 = [0, 1, 2, 3, 4, 5, 6, 7] := by decide
  simp only [BitWriter.putByte, BitWriter.writeBits, byteBits, h1, h2, List.foldl_cons,
    List.foldl_nil, List.map_cons, List.map_nil, shiftRight_and_one]

theorem BitWriter.putBits_white (bw : BitWriter) :
    bw.putBits TagBits.WhiteVal TagBits.WhiteLen = bw.writeBits [false] := by
  rw [BitWriter.putBits_eq _ _ _ (by decide)]; rfl

theorem BitWriter.putBits_black (bw : BitWriter) :
    bw.putBits TagBits.BlackVal TagBits.BlackLen = bw.writeBits [true, false] := by
  rw [BitWriter.putBits_eq _ _ _ (by decide)]
  have h : (List.range TagBits.BlackLen).reverse.map (fun i => TagBits.BlackVal.testBit i) =
      [true, false] := by decide
  rw [h]

theorem BitWriter.putBits_liter (bw : BitWriter) :
    bw.putBits TagBits.LiterVal TagBits.LiterLen = bw.writeBits [true, true] := by
  rw [BitWriter.putBits_eq _ _ _ (by decide)]
  have h : (List.range TagBits.LiterLen).reverse.map (fun i => TagBits.LiterVal.testBit i) =
      [true, true] := by decide
  rw [h]

theorem BitWriter.foldl_writeBits {α : Type} (step : BitWriter → α → BitWriter)
    (f : α → List Bool) (l : List α) :
    ∀ bw : BitWriter, (∀ x ∈ l, ∀ w : BitWriter, step w x = w.writeBits (f x)) →
      l.foldl step bw = bw.writeBits (l.map f).flatten := by
  induction l with
  | nil => intro bw _; simp [BitWriter.writeBits]
  | cons a l ih =>
    intro bw h
    simp only [List.foldl_cons, List.map_cons, List.flatten_cons]
    rw [h a (List.mem_cons_self _ _), BitWriter.writeBits_append]
    exact ih _ (fun x hx w => h x (List.mem_cons_of_mem _ hx) w)

/-! ## Encoder lemmas -/

theorem wrapInt_of_range (z : Int) (h0 : -2147483648 ≤ z) (h1 : z < 2147483648) :
    wrapInt z = z := by
  unfold wrapInt
  omega

theorem ceilDiv_eight (H : Nat) (h : (H : Int) + 8 < 2147483648) :
    ceilDiv (H : Int) (kBitsPerByte : Int) = (((H + 7) / 8 : Nat) : Int) := by
  unfold ceilDiv kBitsPerByte
  have h1 : wrapInt ((H : Int) + ((8 : Nat) : Int)) = (H : Int) + 8 :=
    wrapInt_of_range _ (by omega) (by omega)
  rw [h1, wrapInt_of_range _ (by omega) (by omega), Int.tdiv_eq_ediv (by omega) (by omega)]
  omega

theorem ceilDiv_four (W : Nat) (h : (W : Int) + 4 < 2147483648) :
    ceilDiv (W : Int) (kPixelsPerBlock : Int) = (((W + 3) / 4 : Nat) : Int) := by
  unfold ceilDiv kPixelsPerBlock
  have h1 : wrapInt ((W : Int) + ((4 : Nat) : Int)) = (W : Int) + 4 :=
    wrapInt_of_range _ (by omega) (by omega)
  rw [h1, wrapInt_of_range _ (by omega) (by omega), Int.tdiv_eq_ediv (by omega) (by omega)]
  omega

theorem wrapInt_mul (y W H : Nat) (hy : y < H) (h : ((H : Int) - 1) * W < 2147483648) :
    wrapInt ((y : Int) * (W : Int)) = ((y * W : Nat) : Int) := by
  have h1 : (y : Int) * W ≤ ((H : Int) - 1) * W := by
    apply Int.mul_le_mul_of_nonneg_right _ (by omega)
    omega
  have h2 : (0 : Int) ≤ (y : Int) * W := by positivity
  rw [wrapInt_of_range _ (by omega) (by omega)]
  push_cast
  rfl

theorem readPixel_natCast (data : List Nat) (n : Nat) :
    readPixel data (n : Int) = data.getD n 0 := by
  unfold readPixel
  rw [if_neg (by omega), Int.toNat_ofNat]

theorem readPixel_add (data : List Nat) (a b : Nat) :
    readPixel data ((a : Int) + (b : Int)) = data.getD (a + b) 0 := by
  rw [← Nat.cast_add, readPixel_natCast]

theorem groupPixel_eq (data : List Nat) (off W g k : Nat) (h : off + W ≤ data.length)
    (hx : 4 * g + k < 2147483648) :
    groupPixel data (off : Int) (W : Int) g k = ((data.drop off).take W).getD (4 * g + k) 255 := by
  unfold groupPixel kPixelsPerBlock kPadPixelForCoding kWhite
  have hw : wrapInt ((g : Int) * ((4 : Nat) : Int) + (k : Int)) = ((g * 4 + k : Nat) : Int) := by
    rw [wrapInt_of_range _ (by push_cast; omega) (by push_cast; omega)]
    push_cast
    rfl
  simp only [hw, readPixel_add, Nat.cast_lt]
  simp only [List.getD_eq_getElem?_getD, List.getElem?_take, List.getElem?_drop]
  by_cases hx : g * 4 + k < W
  · have hx2 : 4 * g + k < W := by omega
    have h3 : off + (g * 4 + k) < data.length := by omega
    have h4 : off + (4 * g + k) < data.length := by omega
    simp [hx, hx2, List.getElem?_eq_getElem h3, List.getElem?_eq_getElem h4]
    clear hw
    congr 1; omega
  · have hx2 : ¬ 4 * g + k < W := by omega
    simp [hx, hx2]

theorem encodeGroup_eq (data : List Nat) (off W : Nat) (bw : BitWriter) (g : Nat)
    (h : off + W ≤ data.length) (hx : 4 * g + 3 < 2147483648) :
    encodeGroup data (off : Int) (W : Int) bw g =
      bw.writeBits (specGroupBits (specGroup ((data.drop off).take W) g)) := by
  have h4 : List.range 4 = [0, 1, 2, 3] := by decide
  unfold encodeGroup specGroupBits specGroup
  simp only [groupPixel_eq data off W g 0 h (by omega), groupPixel_eq data off W g 1 h (by omega),
    groupPixel_eq data off W g 2 h (by omega), groupPixel_eq data off W g 3 h (by omega), h4,
    List.map_cons, List.map_nil, List.all_cons,
    List.all_nil, Bool.and_true, kWhite, kBlack, Nat.add_zero]
  split
  · rename_i hw
    simp only [Bool.and_assoc] at hw
    simp only [hw, if_true, BitWriter.putBits_white]
  · rename_i hw
    simp only [Bool.and_assoc] at hw
    simp only [hw]
    split
    · rename_i hb
      simp only [Bool.and_assoc] at hb
      simp only [hb, BitWriter.putBits_black]
      rfl
    · rename_i hb
      simp only [Bool.and_assoc] at hb
      simp only [hb, BitWriter.putBits_liter, BitWriter.putByte_eq,
        ← BitWriter.writeBits_append]
      simp

theorem isRowEmpty_iff (data : List Nat) (off W : Nat) :
    isRowEmpty data (off : Int) (W : Int) = true ↔ ∀ x, x < W → data.getD (off + x) 0 = 255 := by
  unfold isRowEmpty kWhite
  simp only [List.all_eq_true, List.mem_range, beq_iff_eq, Int.toNat_ofNat, readPixel_add]

theorem isRowEmpty_eq (data : List Nat) (off W : Nat) (h : off + W ≤ data.length) :
    isRowEmpty data (off : Int) (W : Int) = rowWhite ((data.drop off).take W) := by
  rw [Bool.eq_iff_iff, isRowEmpty_iff]
  unfold rowWhite
  simp only [List.all_eq_true, beq_iff_eq]
  constructor
  · intro hall p hp
    obtain ⟨i, hi, rfl⟩ := List.mem_iff_getElem.mp hp
    have hi2 : i < W := by
      simp only [List.length_take, List.length_drop] at hi; omega
    have := hall i hi2
    rw [List.getElem_take, List.getElem_drop]
    have h3 : off + i < data.length := by omega
    rw [List.getD_eq_getElem?_getD, List.getElem?_eq_getElem h3] at this
    simpa using this
  · intro hall i hi
    have h3 : off + i < data.length := by omega
    rw [List.getD_eq_getElem?_getD, List.getElem?_eq_getElem h3]
    simp only [Option.getD_some]
    have hlen : i < ((data.drop off).take W).length := by
      simp only [List.length_take, List.length_drop]; omega
    have := hall _ (List.getElem_mem hlen)
    rw [List.getElem_take, List.getElem_drop] at this
    exact this

theorem getD_set_eq (l : List Nat) (i j v : Nat) :
    (l.set i v).getD j 0 = if i = j ∧ i < l.length then v else l.getD j 0 := by
  simp only [List.getD_eq_getElem?_getD, List.getElem?_set]
  by_cases h : i = j
  · subst h
    by_cases h2 : i < l.length
    · simp [h2]
    · simp [h2]
      rw [List.getElem?_eq_none (by omega)]; rfl
  · simp [h]

theorem getD_set_bool (l : List Bool) (i j : Nat) (v : Bool) :
    (l.set i v).getD j false = if i = j ∧ i < l.length then v else l.getD j false := by
  simp only [List.getD_eq_getElem?_getD, List.getElem?_set]
  by_cases h : i = j
  · subst h
    by_cases h2 : i < l.length
    · simp [h2]
    · simp [h2]
      rw [List.getElem?_eq_none (by omega)]; rfl
  · simp [h]

theorem testBit_or_bit (x k b : Nat) :
    ((x ||| (1 <<< k)) % 256).testBit b = (decide (b < 8) && (x.testBit b || decide (k = b))) := by
  have : (256 : Nat) = 2 ^ 8 := by norm_num
  rw [this, Nat.testBit_mod_two_pow, Nat.testBit_or, Nat.one_shiftLeft, Nat.testBit_two_pow]

theorem getD_replicate_zero (R j : Nat) : (List.replicate R 0).getD j 0 = 0 := by
  simp only [List.getD_eq_getElem?_getD, List.getElem?_replicate]
  split <;> rfl

/-- Loop invariant of the first loop of `encode` after `n` rows, `R` being the size of
`rowIndex`: bit `b` of `rowIndex[j]` is set exactly when `b < 8` and row `8 j + b` is one of
the first `n` rows and is empty. -/
theorem rowIndex_inv (data : List Nat) (W : Int) (H R : Nat) (hR : H ≤ 8 * R) (n : Nat)
    (hn : n ≤ H) :
    ((List.range n).foldl (rowIndexStep data W)
        (List.replicate R 0, List.replicate H false)).1.length = R ∧
    ((List.range n).foldl (rowIndexStep data W)
        (List.replicate R 0, List.replicate H false)).2.length = H ∧
    (∀ j b,
      (((List.range n).foldl (rowIndexStep data W)
        (List.replicate R 0, List.replicate H false)).1.getD j 0).testBit b =
          (decide (b < 8) && (decide (8 * j + b < n) &&
            isRowEmpty data (wrapInt (((8 * j + b : Nat) : Int) * W)) W))) ∧
    (∀ y, y < H →
      ((List.range n).foldl (rowIndexStep data W)
        (List.replicate R 0, List.replicate H false)).2.getD y false =
          (decide (y < n) && !isRowEmpty data (wrapInt ((y : Int) * W)) W)) := by
  induction n with
  | zero =>
    refine ⟨by simp, by simp, ?_, ?_⟩
    · intro j b
      simp [getD_replicate_zero]
    · intro y hy
      simp [List.getD_eq_getElem?_getD, List.getElem?_replicate, hy]
  | succ n ih =>
    obtain ⟨h1, h2, h3, h4⟩ := ih (by omega)
    rw [List.range_succ, List.foldl_append]
    simp only [List.foldl_cons, List.foldl_nil]
    generalize (List.range n).foldl (rowIndexStep data W)
        (List.replicate R 0, List.replicate H false) = st at h1 h2 h3 h4 ⊢
    have hn8 : n / 8 < st.1.length := by
      rw [h1]; omega
    unfold rowIndexStep
    by_cases he : isRowEmpty data (wrapInt ((n : Int) * W)) W = true
    · simp only [he, if_true, List.length_set]
      refine ⟨h1, h2, ?_, ?_⟩
      · intro j b
        rw [getD_set_eq]
        unfold kBitsPerByte
        by_cases hj : n / 8 = j
        · subst hj
          rw [if_pos ⟨rfl, hn8⟩, testBit_or_bit, h3]
          by_cases hb : b < 8
          · by_cases hjb : 8 * (n / 8) + b = n
            · have hk : n % 8 = b := by omega
              rw [hjb]
              simp [hb, hk, he]
            · have hk : ¬ n % 8 = b := by omega
              have h5 : decide (8 * (n / 8) + b < n + 1) = decide (8 * (n / 8) + b < n) := by
                simp only [decide_eq_decide]; omega
              rw [h5]
              simp [hb, hk]
          · simp [hb]
        · rw [if_neg (fun h => hj h.1), h3]
          by_cases hb : b < 8
          · have h5 : decide (8 * j + b < n + 1) = decide (8 * j + b < n) := by
              simp only [decide_eq_decide]; omega
            rw [h5]
          · simp [hb]
      · intro y hy
        rw [h4 y hy]
        by_cases hyn : y = n
        · subst hyn; simp [he]
        · have h5 : decide (y < n + 1) = decide (y < n) := by
            simp only [decide_eq_decide]; omega
          rw [h5]
    · have he2 : isRowEmpty data (wrapInt ((n : Int) * W)) W = false := by simpa using he
      simp only [he2, Bool.false_eq_true, if_false, List.length_set]
      refine ⟨h1, h2, ?_, ?_⟩
      · intro j b
        rw [h3]
        by_cases hjb : 8 * j + b = n
        · rw [hjb]
          simp [he2]
        · have h5 : decide (8 * j + b < n + 1) = decide (8 * j + b < n) := by
            simp only [decide_eq_decide]; omega
          rw [h5]
      · intro y hy
        rw [getD_set_bool]
        by_cases hyn : n = y
        · subst hyn
          simp [he2, h2, hy]
        · simp only [hyn, false_and, if_false]
          rw [h4 y hy]
          have h5 : decide (y < n + 1) = decide (y < n) := by
            simp only [decide_eq_decide]; omega
          rw [h5]

theorem buildRowIndex_natCast (data : List Nat) (W : Int) (H R : Nat) :
    buildRowIndex data W (H : Int) (R : Int) = (List.range H).foldl (rowIndexStep data W)
      (List.replicate R 0, List.replicate H false) := by
  unfold buildRowIndex
  simp only [Int.toNat_ofNat]

theorem buildRowIndex_length (data : List Nat) (W : Int) (H R : Nat) (hR : H ≤ 8 * R) :
    (buildRowIndex data W (H : Int) (R : Int)).1.length = R := by
  rw [buildRowIndex_natCast]
  exact (rowIndex_inv data W H R hR H (Nat.le_refl H)).1

theorem buildRowIndex_bits (data : List Nat) (W : Int) (H R : Nat) (hR : H ≤ 8 * R) (j b : Nat) :
    ((buildRowIndex data W (H : Int) (R : Int)).1.getD j 0).testBit b =
      (decide (b < 8) && (decide (8 * j + b < H) &&
        isRowEmpty data (wrapInt (((8 * j + b : Nat) : Int) * W)) W)) := by
  rw [buildRowIndex_natCast]
  exact (rowIndex_inv data W H R hR H (Nat.le_refl H)).2.2.1 j b

theorem buildRowIndex_nonEmpty (data : List Nat) (W : Int) (H R : Nat) (hR : H ≤ 8 * R) (y : Nat)
    (hy : y < H) :
    (buildRowIndex data W (H : Int) (R : Int)).2.getD y false =
      !isRowEmpty data (wrapInt ((y : Int) * W)) W := by
  rw [buildRowIndex_natCast]
  have h := (rowIndex_inv data W H R hR H (Nat.le_refl H)).2.2.2 y hy
  simpa [hy] using h

theorem row_in_bounds (W H y len : Nat) (hlen : len = W * H) (hy : y < H) :
    y * W + W ≤ len := by
  have h1 : (y + 1) * W ≤ H * W := Nat.mul_le_mul_right W hy
  rw [Nat.add_mul, Nat.one_mul] at h1
  rw [hlen, Nat.mul_comm W H]
  exact h1

theorem encodeRow_eq (data : List Nat) (W H R : Nat) (hlen : data.length = W * H)
    (hR : H ≤ 8 * R) (hW : (W : Int) + 4 < 2147483648)
    (hmul : ((H : Int) - 1) * W < 2147483648) (bw : BitWriter) (y : Nat) (hy : y < H) :
    encodeRow data (W : Int) (buildRowIndex data (W : Int) (H : Int) (R : Int)).2 bw y =
      bw.writeBits (specRowBits ((data.drop (y * W)).take W)) := by
  have hb := row_in_bounds W H y data.length hlen hy
  unfold encodeRow specRowBits
  rw [buildRowIndex_nonEmpty data W H R hR y hy, wrapInt_mul y W H hy hmul,
    isRowEmpty_eq data (y * W) W hb, ceilDiv_four W hW, Int.toNat_ofNat]
  have hl : ((data.drop (y * W)).take W).length = W := by
    simp only [List.length_take, List.length_drop]; omega
  by_cases hw : rowWhite ((data.drop (y * W)).take W) = true
  · simp [hw, BitWriter.writeBits]
  · have hw2 : rowWhite ((data.drop (y * W)).take W) = false := by simpa using hw
    simp only [hw2, Bool.not_false, Bool.not_true, Bool.false_eq_true, if_false, hl]
    apply BitWriter.foldl_writeBits _ _ _ bw
    intro g hg w
    have hg2 := List.mem_range.mp hg
    exact encodeGroup_eq data (y * W) W w g hb (by omega)

theorem encodeBitstream_eq (data : List Nat) (W H R : Nat) (hlen : data.length = W * H)
    (hR : H ≤ 8 * R) (hW : (W : Int) + 4 < 2147483648)
    (hmul : ((H : Int) - 1) * W < 2147483648) :
    encodeBitstream data (W : Int) (H : Int) (buildRowIndex data (W : Int) (H : Int) (R : Int)).2 =
      packMSB ((List.range H).map
        (fun y => specRowBits ((data.drop (y * W)).take W))).flatten := by
  unfold encodeBitstream
  rw [Int.toNat_ofNat,
    BitWriter.foldl_writeBits _ (fun y => specRowBits ((data.drop (y * W)).take W)) _ _
    (fun y hy w => encodeRow_eq data W H R hlen hR hW hmul w y (List.mem_range.mp hy))]
  rw [BitWriter.finish_writeBits]
  rfl

theorem writeLE32_eq (buf : List Nat) (v : Nat) : writeLE32 buf v = buf ++ le32 v := by
  have h4 : List.range 4 = [0, 1, 2, 3] := by decide
  unfold writeLE32 le32
  simp only [h4, List.foldl_cons, List.foldl_nil, List.append_assoc, List.singleton_append,
    Nat.shiftRight_eq_div_pow]
  norm_num

theorem frame_eq (W H : Nat) (ri bs : List Nat) :
    frame W H ri bs = [0x42, 0x41, 0x01] ++ le32 (W % 2 ^ 32) ++ le32 (H % 2 ^ 32) ++
      le32 (ri.length % 2 ^ 32) ++ le32 (bs.length % 2 ^ 32) ++ ri ++ bs := by
  unfold frame
  simp only [writeLE32_eq]
  rfl

theorem length_le32 (v : Nat) : (le32 v).length = 4 := rfl

theorem frame_length (W H : Nat) (ri bs : List Nat) :
    (frame W H ri bs).length = 19 + ri.length + bs.length := by
  rw [frame_eq]
  simp only [List.length_append, length_le32, List.length_cons, List.length_nil]

theorem frame_drop_header (W H : Nat) (ri bs : List Nat) :
    (frame W H ri bs).drop 19 = ri ++ bs := by
  rw [frame_eq]
  simp [le32]

theorem frame_drop_rowIndex (W H : Nat) (ri bs : List Nat) :
    (frame W H ri bs).drop (19 + ri.length) = bs := by
  rw [← List.drop_drop, frame_drop_header]
  simp

/-- What `encode` returns on a valid image none of whose `int` computations overflows,
section by section. -/
theorem encode_valid (img : RawImageData) (h : Valid img) (hno : NoOverflow img) :
    ∃ (data : List Nat) (W H : Nat), img = ⟨(W : Int), (H : Int), some data⟩ ∧
      0 < W ∧ 0 < H ∧ data.length = W * H ∧ (H : Int) + 8 < 2147483648 ∧
      (W : Int) + 4 < 2147483648 ∧ ((H : Int) - 1) * W < 2147483648 ∧
      encode img = .ok (frame W H
        (buildRowIndex data (W : Int) (H : Int) (((H + 7) / 8 : Nat) : Int)).1
        (packMSB (specBits img))) := by
  rcases img with ⟨w, ht, d⟩
  cases d with
  | none => exact absurd h (by simp [Valid])
  | some data =>
    simp only [Valid] at h
    obtain ⟨hw, hh, _, _, hlen, _⟩ := h
    simp only [NoOverflow] at hno
    obtain ⟨n1, n2, n3⟩ := hno
    obtain ⟨W, rfl⟩ := Int.eq_ofNat_of_zero_le (le_of_lt hw)
    obtain ⟨H, rfl⟩ := Int.eq_ofNat_of_zero_le (le_of_lt hh)
    have hlen2 : data.length = W * H := by exact_mod_cast hlen
    refine ⟨data, W, H, rfl, by omega, by omega, hlen2, n1, n2, n3, ?_⟩
    unfold encode
    simp only
    rw [if_neg (by omega), ceilDiv_eight H n1, if_neg (by omega)]
    simp only [Int.toNat_ofNat]
    rw [encodeBitstream_eq data W H _ hlen2 (by omega) n2 n3]
    have hs : specBits ⟨(W : Int), (H : Int), some data⟩ = ((List.range H).map
        (fun y => specRowBits ((data.drop (y * W)).take W))).flatten := by
      unfold specBits RawImageData.row RawImageData.pixels
      simp only [Option.getD_some, Int.toNat_ofNat]
    rw [hs]

theorem row_mk (W H : Nat) (data : List Nat) (y : Nat) :
    (RawImageData.mk (W : Int) (H : Int) (some data)).row y = (data.drop (y * W)).take W := by
  unfold RawImageData.row RawImageData.pixels
  simp only [Option.getD_some, Int.toNat_ofNat]

theorem encode_lengthError_iff (img : RawImageData) :
    encode img = .error .lengthError ↔
      (¬ (img.data = none ∨ img.width ≤ 0 ∨ img.height ≤ 0) ∧
        ceilDiv img.height (kBitsPerByte : Int) < 0) := by
  unfold encode
  cases hd : img.data with
  | none => simp
  | some data =>
    by_cases hc : img.width ≤ 0 ∨ img.height ≤ 0
    · simp [hc]
    · by_cases hl : ceilDiv img.height (kBitsPerByte : Int) < 0
      · simp [hc, hl]
      · simp [hc, hl]

theorem encode_ok_frame (img : RawImageData) (out : List Nat) (h : encode img = .ok out) :
    ∃ ri bs, out = frame img.width.toNat img.height.toNat ri bs := by
  unfold encode at h
  cases hd : img.data with
  | none => simp [hd] at h
  | some data =>
    by_cases hc : img.width ≤ 0 ∨ img.height ≤ 0
    · simp [hd, hc] at h
    · by_cases hl : ceilDiv img.height (kBitsPerByte : Int) < 0
      · simp [hd, hc, hl] at h
      · simp only [hd, hc, hl, if_false, Except.ok.injEq] at h
        exact ⟨_, _, h.symm⟩

theorem length_packMSB (bits : List Bool) : (packMSB bits).length = (bits.length + 7) / 8 := by
  induction bits using packMSB.induct with
  | case1 b0 b1 b2 b3 b4 b5 b6 b7 rest ih =>
    simp only [packMSB, List.length_cons, ih]
    omega
  | case2 => rfl
  | case3 bs h1 h2 =>
    match bs, h1, h2 with
    | [], _, h2 => exact absurd rfl h2
    | [b0], _, _ => simp [packMSB]
    | [b0, b1], _, _ => simp [packMSB]
    | [b0, b1, b2], _, _ => simp [packMSB]
    | [b0, b1, b2, b3], _, _ => simp [packMSB]
    | [b0, b1, b2, b3, b4], _, _ => simp [packMSB]
    | [b0, b1, b2, b3, b4, b5], _, _ => simp [packMSB]
    | [b0, b1, b2, b3, b4, b5, b6], _, _ => simp [packMSB]
    | b0 :: b1 :: b2 :: b3 :: b4 :: b5 :: b6 :: b7 :: rest, h1, _ =>
      exact absurd rfl (h1 b0 b1 b2 b3 b4 b5 b6 b7 rest)

theorem length_flatten_map_const (f : Nat → List Bool) (c : Nat) (l : List Nat)
    (h : ∀ x ∈ l, (f x).length = c) : ((l.map f).flatten).length = c * l.length := by
  induction l with
  | nil => simp
  | cons a l ih =>
    simp only [List.map_cons, List.flatten_cons, List.length_append, List.length_cons]
    rw [h a (List.mem_cons_self _ _), ih (fun x hx => h x (List.mem_cons_of_mem _ hx))]
    ring

theorem blackColumn_valid (H : Nat) (h0 : 0 < H) (h1 : H < 2 ^ 31) : Valid (blackColumn H) := by
  unfold Valid blackColumn
  simp only [List.length_replicate]
  refine ⟨by norm_num, by exact_mod_cast h0, by norm_num, by exact_mod_cast h1, by simp, ?_⟩
  intro p hp
  rw [List.eq_of_mem_replicate hp]
  norm_num

theorem uniformColumn_valid (H p : Nat) (h0 : 0 < H) (h1 : H < 2 ^ 31) (hp : p < 256) :
    Valid (uniformColumn H p) := by
  unfold Valid uniformColumn
  simp only [List.length_replicate]
  refine ⟨by norm_num, by exact_mod_cast h0, by norm_num, by exact_mod_cast h1, by simp, ?_⟩
  intro q hq
  rw [List.eq_of_mem_replicate hq]
  exact hp

theorem blackRow_valid (W : Nat) (h0 : 0 < W) (h1 : W < 2 ^ 31) : Valid (blackRow W) := by
  unfold Valid blackRow
  simp only [List.length_replicate]
  refine ⟨by exact_mod_cast h0, by norm_num, by exact_mod_cast h1, by norm_num, by simp, ?_⟩
  intro p hp
  rw [List.eq_of_mem_replicate hp]
  norm_num

/-- The constructor of `rowIndex` throws when `ceilDiv(H, kBitsPerByte)` is negative. -/
theorem encode_lengthError (img : RawImageData) (data : List Nat) (hd : img.data = some data)
    (hw : 0 < img.width) (hh : 0 < img.height)
    (hc : ceilDiv img.height (kBitsPerByte : Int) < 0) : encode img = .error .lengthError := by
  rw [encode_lengthError_iff]
  refine ⟨?_, hc⟩
  rw [hd]
  simp only [reduceCtorEq, false_or, not_or, not_le]
  exact ⟨hw, hh⟩

theorem ceilDiv_intMax : ceilDiv ((2147483647 : Nat) : Int) (kBitsPerByte : Int) < 0 := by
  decide

theorem encode_uniformColumn_overflow (H p : Nat) (h0 : 0 < H)
    (hc : ceilDiv (H : Int) (kBitsPerByte : Int) < 0) :
    encode (uniformColumn H p) = .error .lengthError :=
  encode_lengthError (uniformColumn H p) (List.replicate H p) rfl (by show (0 : Int) < 1; decide)
    (by show (0 : Int) < (H : Int); omega) hc

theorem encode_blackColumn_overflow (H : Nat) (h0 : 0 < H)
    (hc : ceilDiv (H : Int) (kBitsPerByte : Int) < 0) :
    encode (blackColumn H) = .error .lengthError :=
  encode_lengthError (blackColumn H) (List.replicate H 0) rfl (by show (0 : Int) < 1; decide)
    (by show (0 : Int) < (H : Int); omega) hc

theorem blackColumn_row (H y : Nat) (hy : y < H) : (blackColumn H).row y = [0] := by
  unfold RawImageData.row RawImageData.pixels blackColumn
  simp only [Option.getD_some, List.drop_replicate, List.take_replicate]
  have h1 : (1 : Int).toNat = 1 := rfl
  rw [h1]
  have h2 : min 1 (H - y * 1) = 1 := by omega
  rw [h2]
  rfl

theorem specBits_blackColumn_length (H : Nat) : (specBits (blackColumn H)).length = 34 * H := by
  unfold specBits
  have hH : (blackColumn H).height.toNat = H := by simp [blackColumn]
  rw [hH]
  rw [length_flatten_map_const _ 34 _ ?_, List.length_range]
  intro y hy
  rw [blackColumn_row H y (List.mem_range.mp hy)]
  decide

theorem frame_dataSize_field (W H : Nat) (ri bs : List Nat) :
    ((frame W H ri bs).drop 15).take 4 = le32 (bs.length % 2 ^ 32) := by
  rw [frame_eq]
  simp [le32]

theorem blackColumn_noOverflow (H : Nat) (h0 : 0 < H) (h1 : (H : Int) + 8 < 2147483648) :
    NoOverflow (blackColumn H) := by
  unfold NoOverflow blackColumn
  simp only
  omega

theorem encode_blackColumn (H : Nat) (h0 : 0 < H) (h1 : (H : Int) + 8 < 2147483648) :
    ∃ out, encode (blackColumn H) = .ok out ∧
      (out.drop 15).take 4 = le32 ((34 * H + 7) / 8 % 2 ^ 32) ∧
      out.length = 19 + (H + 7) / 8 + (34 * H + 7) / 8 := by
  have hv : Valid (blackColumn H) := blackColumn_valid H h0 (by omega)
  obtain ⟨data, W, H2, himg, _, _, _, _, _, _, henc⟩ :=
    encode_valid _ hv (blackColumn_noOverflow H h0 h1)
  have hH2 : H2 = H := by
    have : ((H : Nat) : Int) = (H2 : Int) := congrArg RawImageData.height himg
    omega
  subst hH2
  have hR := buildRowIndex_length data (W : Int) H2 ((H2 + 7) / 8) (by omega)
  have hD : (packMSB (specBits (blackColumn H2))).length = (34 * H2 + 7) / 8 := by
    rw [length_packMSB, specBits_blackColumn_length]
  refine ⟨_, henc, ?_, ?_⟩
  · rw [frame_dataSize_field, hD]
  · rw [frame_length, hD, hR]

theorem readLE32_lt (p : List Nat) (off : Nat) : readLE32 p off < 2 ^ 32 := by
  have h4 : List.range 4 = [0, 1, 2, 3] := by decide
  unfold readLE32
  simp only [h4, List.foldl_cons, List.foldl_nil]
  exact Nat.mod_lt _ (by norm_num)

theorem getD_eq_of_take_eq (a b : List Nat) (n i : Nat) (h : a.take n = b.take n) (hi : i < n) :
    a.getD i 0 = b.getD i 0 := by
  have h1 : (a.take n)[i]? = (b.take n)[i]? := by rw [h]
  simp only [List.getElem?_take, hi, if_true] at h1
  simp only [List.getD_eq_getElem?_getD, h1]

theorem readLE32_eq_of_take_eq (a b : List Nat) (n off : Nat) (h : a.take n = b.take n)
    (ho : off + 4 ≤ n) : readLE32 a off = readLE32 b off := by
  have h4 : List.range 4 = [0, 1, 2, 3] := by decide
  unfold readLE32
  simp only [h4, List.foldl_cons, List.foldl_nil]
  rw [getD_eq_of_take_eq a b n (off + 0) h (by omega),
    getD_eq_of_take_eq a b n (off + 1) h (by omega),
    getD_eq_of_take_eq a b n (off + 2) h (by omega),
    getD_eq_of_take_eq a b n (off + 3) h (by omega)]

theorem decode_badMagic (init : Nat → Nat) (buf : List Nat) (h19 : 19 ≤ buf.length)
    (hm : buf.getD 0 0 ≠ 0x42 ∨ buf.getD 1 0 ≠ 0x41) :
    decode init (some buf) = .error .badMagic := by
  unfold decode
  simp only [kHeaderSize, kMagic0, kMagic1]
  rw [if_neg (by omega), if_pos hm]

theorem decode_badVersion (init : Nat → Nat) (buf : List Nat) (h19 : 19 ≤ buf.length)
    (hm0 : buf.getD 0 0 = 0x42) (hm1 : buf.getD 1 0 = 0x41) (hv : buf.getD 2 0 ≠ 0x01) :
    decode init (some buf) = .error .unsupportedVersion := by
  unfold decode
  simp only [kHeaderSize, kMagic0, kMagic1, kFileVersion]
  rw [if_neg (by omega), if_neg (not_or.mpr ⟨not_not.mpr hm0, not_not.mpr hm1⟩), if_pos hv]

theorem decode_truncated (init : Nat → Nat) (buf : List Nat) (h19 : 19 ≤ buf.length)
    (hm0 : buf.getD 0 0 = 0x42) (hm1 : buf.getD 1 0 = 0x41) (hv : buf.getD 2 0 = 0x01)
    (hneed : buf.length < 19 + readLE32 buf 11 + readLE32 buf 15) :
    decode init (some buf) = .error .truncated := by
  unfold decode
  simp only [kHeaderSize, kMagic0, kMagic1, kFileVersion, kOffRowIndexSize, kOffDataSize]
  rw [if_neg (by omega), if_neg (not_or.mpr ⟨not_not.mpr hm0, not_not.mpr hm1⟩), if_neg (not_not.mpr hv)]
  have h1 := readLE32_lt buf 11
  have h2 := readLE32_lt buf 15
  have h3 : (19 + readLE32 buf 11 + readLE32 buf 15) % 2 ^ 64 =
      19 + readLE32 buf 11 + readLE32 buf 15 := Nat.mod_eq_of_lt (by omega)
  rw [h3, if_pos hneed]

theorem frame_magic (W H : Nat) (ri bs : List Nat) :
    (frame W H ri bs).getD 0 0 = 0x42 ∧ (frame W H ri bs).getD 1 0 = 0x41 := by
  rw [frame_eq]
  constructor <;> rfl

theorem decode_blackPixelFile (init : Nat → Nat) :
    decode init (some blackPixelFile) = .ok ⟨1, 1, some [init 0]⟩ := by
  rfl

theorem decode_exhaustedFile (init : Nat → Nat) :
    decode init (some exhaustedFile) = .ok ⟨1, 1, some [init 0]⟩ := by
  rfl

theorem decode_grayPixelFile (init : Nat → Nat) :
    decode init (some grayPixelFile) = .ok ⟨1, 1, some [init 0]⟩ := by
  rfl

/-! ## Decoder lemmas -/

theorem decodeRow_ok (rowIndex : List Nat) (W : Nat) (st : DecState) (y : Nat) :
    decodeRow rowIndex W st y = .ok (decodeRowHead rowIndex W st y).1 := rfl

theorem foldlM_decodeRow (rowIndex : List Nat) (W : Nat) (l : List Nat) :
    ∀ st : DecState, l.foldlM (decodeRow rowIndex W) st =
      .ok (l.foldl (fun s y => (decodeRowHead rowIndex W s y).1) st) := by
  induction l with
  | nil => intro st; rfl
  | cons y l ih =>
    intro st
    rw [List.foldlM_cons, decodeRow_ok]
    exact ih _

/-- What `decode` returns on a buffer that passes its four header checks: the row loop never
fails, and it only ever fills rows whose emptiness bit is set. -/
theorem decode_ok_of_header (init : Nat → Nat) (buf : List Nat) (h19 : 19 ≤ buf.length)
    (hm0 : buf.getD 0 0 = 0x42) (hm1 : buf.getD 1 0 = 0x41) (hv : buf.getD 2 0 = 0x01)
    (hneed : 19 + readLE32 buf 11 + readLE32 buf 15 ≤ buf.length) :
    decode init (some buf) = .ok (RawImageData.mk (toInt32 (readLE32 buf 3))
      (toInt32 (readLE32 buf 7))
      (some ((List.range ((readLE32 buf 3 * readLE32 buf 7) % 2 ^ 64)).map
        ((List.range (readLE32 buf 7)).foldl
          (fun s y => (decodeRowHead (buf.drop 19) (readLE32 buf 3) s y).1)
          (DecState.mk init
            (BitReader.mk ((buf.drop 19).drop (readLE32 buf 11)) (readLE32 buf 15) 0 0))).mem))) := by
  unfold decode
  simp only [kHeaderSize, kMagic0, kMagic1, kFileVersion, kOffRowIndexSize, kOffDataSize,
    kOffWidth, kOffHeight]
  rw [if_neg (by omega), if_neg (not_or.mpr ⟨not_not.mpr hm0, not_not.mpr hm1⟩),
    if_neg (not_not.mpr hv)]
  have h1 := readLE32_lt buf 11
  have h2 := readLE32_lt buf 15
  have h3 : (19 + readLE32 buf 11 + readLE32 buf 15) % 2 ^ 64 =
      19 + readLE32 buf 11 + readLE32 buf 15 := Nat.mod_eq_of_lt (by omega)
  rw [h3, if_neg (by omega)]
  simp only [foldlM_decodeRow]

/-! ## All-black images -/

theorem foldl_rowIndexStep_of_nonEmpty (data : List Nat) (W : Int) (l : List Nat) :
    ∀ st : List Nat × List Bool,
      (∀ y ∈ l, isRowEmpty data (wrapInt ((y : Int) * W)) W = false) →
      (l.foldl (rowIndexStep data W) st).1 = st.1 := by
  induction l with
  | nil => intro st _; rfl
  | cons y l ih =>
    intro st h
    rw [List.foldl_cons, ih _ (fun z hz => h z (List.mem_cons_of_mem _ hz))]
    unfold rowIndexStep
    simp only [h y (List.mem_cons_self _ _), Bool.false_eq_true, if_false]

theorem buildRowIndex_of_nonEmpty (data : List Nat) (W : Int) (H R : Nat)
    (h : ∀ y, y < H → isRowEmpty data (wrapInt ((y : Int) * W)) W = false) :
    (buildRowIndex data W (H : Int) (R : Int)).1 = List.replicate R 0 := by
  rw [buildRowIndex_natCast,
    foldl_rowIndexStep_of_nonEmpty data W _ _ (fun y hy => h y (List.mem_range.mp hy))]

theorem getD_of_forall_zero (l : List Nat) (i : Nat) (h : ∀ p ∈ l, p = 0) : l.getD i 0 = 0 := by
  rw [List.getD_eq_getElem?_getD]
  by_cases hi : i < l.length
  · rw [List.getElem?_eq_getElem hi]
    exact h _ (List.getElem_mem hi)
  · rw [List.getElem?_eq_none (by omega)]
    rfl

theorem readPixel_of_forall_zero (data : List Nat) (off : Int) (h : ∀ p ∈ data, p = 0) :
    readPixel data off = 0 := by
  unfold readPixel
  split
  · rfl
  · exact getD_of_forall_zero data _ h

theorem isRowEmpty_of_first (data : List Nat) (off W : Int) (hW : 0 < W)
    (h : readPixel data off ≠ 255) : isRowEmpty data off W = false := by
  rw [← Bool.not_eq_true]
  unfold isRowEmpty kWhite
  simp only [List.all_eq_true, List.mem_range, beq_iff_eq]
  intro hall
  have h0 := hall 0 (by omega)
  simp only [Nat.cast_zero, add_zero] at h0
  exact h h0

theorem blackTags_add (a b : Nat) : blackTags (a + b) = blackTags a ++ blackTags b := by
  unfold blackTags
  rw [List.replicate_add, List.flatten_append]

theorem flatten_map_const_blackTags (k : Nat) (l : List Nat) (f : Nat → List Bool)
    (h : ∀ y ∈ l, f y = blackTags k) : (l.map f).flatten = blackTags (l.length * k) := by
  induction l with
  | nil => simp [blackTags]
  | cons a l ih =>
    rw [List.map_cons, List.flatten_cons, h a (List.mem_cons_self _ _),
      ih (fun y hy => h y (List.mem_cons_of_mem _ hy)), List.length_cons, Nat.add_mul,
      Nat.one_mul, Nat.add_comm, blackTags_add]

theorem flatten_map_blackTag (l : List Nat) (f : Nat → List Bool)
    (h : ∀ g ∈ l, f g = [true, false]) : (l.map f).flatten = blackTags l.length := by
  induction l with
  | nil => simp [blackTags]
  | cons a l ih =>
    rw [List.map_cons, List.flatten_cons, h a (List.mem_cons_self _ _),
      ih (fun y hy => h y (List.mem_cons_of_mem _ hy)), List.length_cons, Nat.add_comm,
      blackTags_add]
    rfl

theorem specRowBits_black (row : List Nat) (h0 : 0 < row.length) (h4 : row.length % 4 = 0)
    (hb : ∀ p ∈ row, p = 0) : specRowBits row = blackTags (row.length / 4) := by
  unfold specRowBits
  have hw : rowWhite row = false := by
    unfold rowWhite
    rw [← Bool.not_eq_true, List.all_eq_true]
    intro hall
    have := hall _ (List.getElem_mem h0)
    rw [hb _ (List.getElem_mem h0)] at this
    simp at this
  simp only [hw, Bool.false_eq_true, if_false]
  have hg : (row.length + 3) / 4 = row.length / 4 := by omega
  rw [hg, flatten_map_blackTag _ _ ?_, List.length_range]
  intro g hg
  have hg2 := List.mem_range.mp hg
  have h4r : List.range 4 = [0, 1, 2, 3] := by decide
  unfold specGroup
  simp only [h4r, List.map_cons, List.map_nil]
  have hk : ∀ k, k < 4 → row.getD (4 * g + k) 255 = 0 := by
    intro k hk
    have hlt : 4 * g + k < row.length := by omega
    rw [List.getD_eq_getElem?_getD, List.getElem?_eq_getElem hlt]
    exact hb _ (List.getElem_mem hlt)
  rw [hk 0 (by omega), hk 1 (by omega), hk 2 (by omega), hk 3 (by omega)]
  rfl

theorem specBits_allBlack (img : RawImageData) (data : List Nat) (hd : img.data = some data)
    (hlen : data.length = img.width.toNat * img.height.toNat) (hW : 0 < img.width.toNat)
    (h4 : img.width.toNat % 4 = 0) (hb : ∀ p ∈ data, p = 0) :
    specBits img = blackTags (img.height.toNat * (img.width.toNat / 4)) := by
  unfold specBits
  have hr := flatten_map_const_blackTags (img.width.toNat / 4) (List.range img.height.toNat)
    (fun y => specRowBits (img.row y)) ?_
  · rw [hr, List.length_range]
  · intro y hy
    have hy2 := List.mem_range.mp hy
    have hbnd := row_in_bounds img.width.toNat img.height.toNat y data.length hlen hy2
    have hpx : img.pixels = data := by unfold RawImageData.pixels; rw [hd]; rfl
    have hl : (img.row y).length = img.width.toNat := by
      unfold RawImageData.row
      rw [hpx]
      simp only [List.length_take, List.length_drop]; omega
    have := specRowBits_black (img.row y) (by omega) (by omega) ?_
    · show specRowBits (img.row y) = blackTags (img.width.toNat / 4)
      rw [this, hl]
    · intro p hp
      unfold RawImageData.row at hp
      rw [hpx] at hp
      exact hb p (List.mem_of_mem_drop (List.mem_of_mem_take hp))

/-! ## Bit-level view of the packing -/

set_option maxRecDepth 100000 in
theorem bitsToByte_testBit_full : ∀ (b0 b1 b2 b3 b4 b5 b6 b7 : Bool) (k : Fin 8),
    (bitsToByte [b0, b1, b2, b3, b4, b5, b6, b7]).testBit (7 - k.val) =
      [b0, b1, b2, b3, b4, b5, b6, b7].getD k.val false := by
  decide

theorem getD_pad (bs : List Bool) (n k : Nat) :
    (bs ++ List.replicate n false).getD k false = bs.getD k false := by
  simp only [List.getD_eq_getElem?_getD]
  by_cases hkl : k < bs.length
  · rw [List.getElem?_append_left hkl]
  · have h1 : bs[k]? = none := List.getElem?_eq_none (by omega)
    rw [List.getElem?_append_right (by omega), h1, List.getElem?_replicate]
    split <;> rfl

theorem bitsToByte_pad (bs : List Bool) :
    bitsToByte bs = bitsToByte (bs ++ List.replicate (8 - bs.length) false) := by
  unfold bitsToByte
  congr 1
  apply List.map_congr_left
  intro k _
  rw [getD_pad]

theorem bitsToByte_testBit (bs : List Bool) (h : bs.length ≤ 8) (k : Nat) (hk : k < 8) :
    (bitsToByte bs).testBit (7 - k) = bs.getD k false := by
  rw [bitsToByte_pad bs, ← getD_pad bs (8 - bs.length) k]
  have hl : (bs ++ List.replicate (8 - bs.length) false).length = 8 := by
    simp only [List.length_append, List.length_replicate]; omega
  generalize bs ++ List.replicate (8 - bs.length) false = l at hl
  match l, hl with
  | [b0, b1, b2, b3, b4, b5, b6, b7], _ =>
    exact bitsToByte_testBit_full b0 b1 b2 b3 b4 b5 b6 b7 ⟨k, hk⟩

set_option maxRecDepth 100000 in
theorem bitsToByte_lt_full : ∀ (b0 b1 b2 b3 b4 b5 b6 b7 : Bool),
    bitsToByte [b0, b1, b2, b3, b4, b5, b6, b7] < 256 := by
  decide

theorem bitsToByte_lt (bs : List Bool) (h : bs.length ≤ 8) : bitsToByte bs < 256 := by
  rw [bitsToByte_pad bs]
  have hl : (bs ++ List.replicate (8 - bs.length) false).length = 8 := by
    simp only [List.length_append, List.length_replicate]; omega
  generalize bs ++ List.replicate (8 - bs.length) false = l at hl
  match l, hl with
  | [b0, b1, b2, b3, b4, b5, b6, b7], _ => exact bitsToByte_lt_full b0 b1 b2 b3 b4 b5 b6 b7

theorem packMSB_short (bs : List Bool) (h0 : bs ≠ []) (h8 : bs.length < 8) :
    packMSB bs = [bitsToByte bs] := by
  match bs, h0, h8 with
  | [b0], _, _ => rfl
  | [b0, b1], _, _ => rfl
  | [b0, b1, b2], _, _ => rfl
  | [b0, b1, b2, b3], _, _ => rfl
  | [b0, b1, b2, b3, b4], _, _ => rfl
  | [b0, b1, b2, b3, b4, b5], _, _ => rfl
  | [b0, b1, b2, b3, b4, b5, b6], _, _ => rfl

theorem length_lt_eight (bs : List Bool)
    (h1 : ∀ (b0 b1 b2 b3 b4 b5 b6 b7 : Bool) (rest : List Bool),
      bs = b0 :: b1 :: b2 :: b3 :: b4 :: b5 :: b6 :: b7 :: rest → False) : bs.length < 8 := by
  by_contra hc
  match bs, h1, hc with
  | b0 :: b1 :: b2 :: b3 :: b4 :: b5 :: b6 :: b7 :: rest, h1, _ =>
    exact h1 b0 b1 b2 b3 b4 b5 b6 b7 rest rfl
  | [], _, hc => simp at hc
  | [_], _, hc => simp at hc
  | [_, _], _, hc => simp at hc
  | [_, _, _], _, hc => simp at hc
  | [_, _, _, _], _, hc => simp at hc
  | [_, _, _, _, _], _, hc => simp at hc
  | [_, _, _, _, _, _], _, hc => simp at hc
  | [_, _, _, _, _, _, _], _, hc => simp at hc

theorem packMSB_lt (bits : List Bool) : ∀ x ∈ packMSB bits, x < 256 := by
  induction bits using packMSB.induct with
  | case1 b0 b1 b2 b3 b4 b5 b6 b7 rest ih =>
    intro x hx
    simp only [packMSB, List.mem_cons] at hx
    rcases hx with rfl | hx
    · exact bitsToByte_lt_full b0 b1 b2 b3 b4 b5 b6 b7
    · exact ih x hx
  | case2 => intro x hx; simp [packMSB] at hx
  | case3 bs h1 h2 =>
    intro x hx
    have h8 : bs.length < 8 := length_lt_eight bs h1
    rw [packMSB_short bs (fun h => h2 h) h8] at hx
    simp only [List.mem_singleton] at hx
    rw [hx]
    exact bitsToByte_lt bs (by omega)

theorem packMSB_testBit (bits : List Bool) :
    ∀ i, i < 8 * (packMSB bits).length →
      ((packMSB bits).getD (i / 8) 0).testBit (7 - i % 8) = bits.getD i false := by
  induction bits using packMSB.induct with
  | case1 b0 b1 b2 b3 b4 b5 b6 b7 rest ih =>
    intro i hi
    simp only [packMSB, List.length_cons] at hi ⊢
    by_cases h8 : i < 8
    · have hd : i / 8 = 0 := by omega
      have hm : i % 8 = i := by omega
      rw [hd, hm]
      have hf := bitsToByte_testBit_full b0 b1 b2 b3 b4 b5 b6 b7 ⟨i, h8⟩
      simp only [List.getD_cons_zero]
      rw [hf]
      interval_cases i <;> rfl
    · obtain ⟨j, rfl⟩ : ∃ j, i = j + 8 := ⟨i - 8, by omega⟩
      have hd : (j + 8) / 8 = j / 8 + 1 := by omega
      have hm : (j + 8) % 8 = j % 8 := by omega
      rw [hd, hm]
      simp only [List.getD_cons_succ]
      exact ih j (by omega)
  | case2 => intro i hi; simp [packMSB] at hi
  | case3 bs h1 h2 =>
    intro i hi
    have h8 : bs.length < 8 := length_lt_eight bs h1
    rw [packMSB_short bs (fun h => h2 h) h8] at hi ⊢
    simp only [List.length_singleton] at hi
    have hd : i / 8 = 0 := by omega
    have hm : i % 8 = i := by omega
    rw [hd, hm]
    exact bitsToByte_testBit bs (by omega) i (by omega)

theorem BitWriter.putBit_testBit (bw : BitWriter) (b : Nat) :
    bw.putBit b = bw.writeBits [b.testBit 0] := by
  have h : (b.testBit 0).toNat &&& 1 = b &&& 1 := by
    rw [← shiftRight_and_one b 0, Nat.shiftRight_zero]
    simp only [Nat.and_one_is_mod, Nat.mod_mod]
  simp only [BitWriter.writeBits, List.foldl_cons, List.foldl_nil]
  unfold BitWriter.putBit
  rw [h]

theorem WriterCall.run_eq (bw : BitWriter) (c : WriterCall)
    (h : ∀ v n, c = WriterCall.putBits v n → n ≤ 32) :
    WriterCall.run bw c = bw.writeBits c.bits := by
  cases c with
  | putBit b => exact BitWriter.putBit_testBit bw b
  | putBits v n => exact BitWriter.putBits_eq bw v n (h v n rfl)
  | putByte b =>
    have h : BitWriter.putByte bw b =
        bw.writeBits ((List.range 8).reverse.map (fun i => b.testBit i)) := by
      unfold BitWriter.putByte BitWriter.writeBits
      rw [List.foldl_map]
      simp only [shiftRight_and_one]
      rfl
    exact h

theorem runCalls_eq (calls : List WriterCall)
    (h : ∀ v n, WriterCall.putBits v n ∈ calls → n ≤ 32) :
    runCalls calls = packMSB (writtenBits calls) := by
  unfold runCalls writtenBits
  rw [BitWriter.foldl_writeBits WriterCall.run WriterCall.bits calls _
    (fun c hc w => WriterCall.run_eq w c (fun v n hvn => h v n (hvn ▸ hc))),
    BitWriter.finish_writeBits]
  rfl

/-! ## Rows of width 5 -/

theorem specBits_five (p0 p1 p2 p3 p4 : Nat) (h0 : p0 ≠ 0 ∧ p0 ≠ 255) (h4 : p4 ≠ 0 ∧ p4 ≠ 255) :
    specBits ⟨5, 1, some [p0, p1, p2, p3, p4]⟩ =
      literalBits [p0, p1, p2, p3] ++ literalBits [p4, 255, 255, 255] := by
  have hr1 : List.range 1 = [0] := by decide
  have hr2 : List.range 2 = [0, 1] := by decide
  have hr4 : List.range 4 = [0, 1, 2, 3] := by decide
  have e5 : (5 : Int).toNat = 5 := rfl
  have e1 : (1 : Int).toNat = 1 := rfl
  simp only [specBits, RawImageData.row, RawImageData.pixels, Option.getD_some, e5, e1, hr1,
    List.map_cons, List.map_nil, Nat.zero_mul, List.drop_zero, List.flatten_cons,
    List.flatten_nil, List.append_nil]
  have ht : List.take 5 [p0, p1, p2, p3, p4] = [p0, p1, p2, p3, p4] := rfl
  rw [ht]
  unfold specRowBits rowWhite
  have hl : ([p0, p1, p2, p3, p4].length + 3) / 4 = 2 := by simp
  rw [hl, hr2]
  have g0 : specGroup [p0, p1, p2, p3, p4] 0 = [p0, p1, p2, p3] := by
    simp only [specGroup, hr4, List.map_cons, List.map_nil]; rfl
  have g1 : specGroup [p0, p1, p2, p3, p4] 1 = [p4, 255, 255, 255] := by
    simp only [specGroup, hr4, List.map_cons, List.map_nil]; rfl
  simp only [List.map_cons, List.map_nil, g0, g1, List.flatten_cons, List.flatten_nil,
    List.append_nil]
  have w : ([p0, p1, p2, p3, p4].all fun p => p == 255) = false := by
    simp [h0.2]
  rw [w]
  simp only [Bool.false_eq_true, if_false]
  unfold specGroupBits literalBits
  have a0 : ([p0, p1, p2, p3].all fun p => p == 255) = false := by simp [h0.2]
  have b0 : ([p0, p1, p2, p3].all fun p => p == 0) = false := by simp [h0.1]
  have a1 : ([p4, 255, 255, 255].all fun p => p == 255) = false := by simp [h4.2]
  have b1 : ([p4, 255, 255, 255].all fun p => p == 0) = false := by simp [h4.1]
  rw [a0, b0, a1, b1]
  simp only [Bool.false_eq_true, if_false]

theorem readLE32_append_left (a b : List Nat) (off : Nat) (h : off + 4 ≤ a.length) :
    readLE32 (a ++ b) off = readLE32 a off := by
  apply readLE32_eq_of_take_eq (a ++ b) a a.length off _ h
  simp

theorem getD_append_left_nat (a b : List Nat) (i : Nat) (h : i < a.length) :
    (a ++ b).getD i 0 = a.getD i 0 := by
  simp only [List.getD_eq_getElem?_getD, List.getElem?_append_left h]

theorem decode_fiveHeader (init : Nat → Nat) (bs : List Nat) (hbs : bs.length = 9) :
    decode init (some (fiveHeader ++ bs)) =
      .ok ⟨5, 1, some [init 0, init 1, init 2, init 3, init 4]⟩ := by
  have hl : (fiveHeader ++ bs).length = 29 := by
    rw [List.length_append, hbs]; rfl
  have r3 : readLE32 (fiveHeader ++ bs) 3 = 5 := by
    rw [readLE32_append_left _ _ _ (by decide)]; decide
  have r7 : readLE32 (fiveHeader ++ bs) 7 = 1 := by
    rw [readLE32_append_left _ _ _ (by decide)]; decide
  have r11 : readLE32 (fiveHeader ++ bs) 11 = 1 := by
    rw [readLE32_append_left _ _ _ (by decide)]; decide
  have r15 : readLE32 (fiveHeader ++ bs) 15 = 9 := by
    rw [readLE32_append_left _ _ _ (by decide)]; decide
  rw [decode_ok_of_header init (fiveHeader ++ bs) (by omega)
    (by rw [getD_append_left_nat _ _ _ (by decide)]; rfl)
    (by rw [getD_append_left_nat _ _ _ (by decide)]; rfl)
    (by rw [getD_append_left_nat _ _ _ (by decide)]; rfl)
    (by rw [r11, r15, hl])]
  rw [r3, r7, r11, r15]
  have hri : (List.drop 19 (fiveHeader ++ bs)).getD 0 0 = 0 := by
    have h0 : (List.drop 19 (fiveHeader ++ bs)).getD 0 0 = (fiveHeader ++ bs).getD 19 0 := by
      simp only [List.getD_eq_getElem?_getD, List.getElem?_drop]
    rw [h0, getD_append_left_nat _ _ _ (by decide)]
    rfl
  have hstep : ∀ st : DecState,
      (decodeRowHead (List.drop 19 (fiveHeader ++ bs)) 5 st 0).1 = st := by
    intro st
    unfold decodeRowHead
    simp only [kBitsPerByte, Nat.zero_div, hri]
    rfl
  have hr1 : List.range 1 = [0] := by decide
  have hr5 : List.range (5 * 1 % 2 ^ 64) = [0, 1, 2, 3, 4] := by decide
  have h5 : toInt32 5 = 5 := by decide
  have h1 : toInt32 1 = 1 := by decide
  rw [hr1, hr5, h5, h1]
  simp only [List.foldl_cons, List.foldl_nil, hstep, List.map_cons, List.map_nil]

theorem length_literalBits (a b c d : Nat) : (literalBits [a, b, c, d]).length = 34 := by
  simp [literalBits, byteBits]

theorem frame_five (bs : List Nat) (hbs : bs.length = 9) : frame 5 1 [0] bs = fiveHeader ++ bs := by
  rw [frame_eq, hbs]
  rfl

theorem encode_five (p0 p1 p2 p3 p4 : Nat) (h0 : p0 ≠ 0 ∧ p0 ≠ 255) (h4 : p4 ≠ 0 ∧ p4 ≠ 255)
    (hv : Valid ⟨5, 1, some [p0, p1, p2, p3, p4]⟩) :
    encode ⟨5, 1, some [p0, p1, p2, p3, p4]⟩ = .ok (fiveHeader ++
      packMSB (literalBits [p0, p1, p2, p3] ++ literalBits [p4, 255, 255, 255])) := by
  obtain ⟨data, W, H, himg, _, _, _, _, _, _, henc⟩ :=
    encode_valid _ hv (by unfold NoOverflow; norm_num)
  have hd : [p0, p1, p2, p3, p4] = data := by
    have := congrArg RawImageData.data himg
    simpa using this
  have hW5 : W = 5 := by
    have : (5 : Int) = (W : Int) := congrArg RawImageData.width himg
    omega
  have hH1 : H = 1 := by
    have : (1 : Int) = (H : Int) := congrArg RawImageData.height himg
    omega
  subst hd hW5 hH1
  rw [henc, specBits_five p0 p1 p2 p3 p4 h0 h4]
  have hri : (buildRowIndex [p0, p1, p2, p3, p4] ((5 : Nat) : Int) ((1 : Nat) : Int)
      (((1 + 7) / 8 : Nat) : Int)).1 = [0] := by
    rw [buildRowIndex_of_nonEmpty]
    · rfl
    · intro y hy
      apply isRowEmpty_of_first _ _ _ (by norm_num)
      have : y = 0 := by omega
      subst this
      have hz : wrapInt (((0 : Nat) : Int) * ((5 : Nat) : Int)) = ((0 : Nat) : Int) := by decide
      rw [hz, readPixel_natCast]
      exact h0.2
  rw [hri, frame_five]
  rw [length_packMSB, List.length_append, length_literalBits, length_literalBits]

theorem decode_sampleFiveFile (init : Nat → Nat) :
    decode init (some sampleFiveFile) =
      .ok ⟨5, 1, some [init 0, init 1, init 2, init 3, init 4]⟩ := by
  rfl

/-! ## Images on which an `int` computation of `encode` overflows -/

theorem specGroupBits_ne_nil (px : List Nat) : specGroupBits px ≠ [] := by
  unfold specGroupBits
  split
  · simp
  · split <;> simp

theorem specRowBits_ne_nil (row : List Nat) (hw : rowWhite row = false) (h0 : 0 < row.length) :
    specRowBits row ≠ [] := by
  unfold specRowBits
  simp only [hw, Bool.false_eq_true, if_false]
  obtain ⟨m, hm⟩ : ∃ m, (row.length + 3) / 4 = m + 1 := ⟨(row.length + 3) / 4 - 1, by omega⟩
  rw [hm, List.range_succ, List.map_append, List.flatten_append]
  intro h
  have h2 := (List.append_eq_nil.mp h).2
  simp only [List.map_cons, List.map_nil, List.flatten_cons, List.flatten_nil,
    List.append_nil] at h2
  exact specGroupBits_ne_nil _ h2

theorem specBits_blackRow_ne_nil (W : Nat) (h0 : 0 < W) : specBits (blackRow W) ≠ [] := by
  have hs : specBits (blackRow W) = specRowBits (List.replicate W 0) := by
    unfold specBits blackRow RawImageData.row RawImageData.pixels
    have h1 : ((1 : Int)).toNat = 1 := rfl
    have hr1 : List.range 1 = [0] := by decide
    simp only [h1, hr1, List.map_cons, List.map_nil, List.flatten_cons,
      List.flatten_nil, List.append_nil, Option.getD_some, Int.toNat_ofNat, Nat.zero_mul,
      List.drop_zero, List.take_replicate, Nat.min_self]
  rw [hs]
  apply specRowBits_ne_nil
  · unfold rowWhite
    rw [← Bool.not_eq_true, List.all_eq_true]
    intro hall
    have := hall 0 (List.mem_replicate.mpr ⟨by omega, rfl⟩)
    simp at this
  · rw [List.length_replicate]
    exact h0

/-- A black row whose group count `ceilDiv(W, kPixelsPerBlock)` is not positive: the group
loop does not run and the bitstream is empty. -/
theorem encode_blackRow_overflow (W : Nat) (h0 : 0 < W)
    (hc : ceilDiv (W : Int) (kPixelsPerBlock : Int) ≤ 0) :
    encode (blackRow W) = .ok (frame W 1 [0] []) := by
  have h8 : ceilDiv (1 : Int) (kBitsPerByte : Int) = 1 := by decide
  have ht : ((1 : Int)).toNat = 1 := rfl
  have hr1 : List.range 1 = [0] := by decide
  have hE : isRowEmpty (List.replicate W 0) (wrapInt (((0 : Nat) : Int) * (W : Int))) (W : Int) =
      false := by
    apply isRowEmpty_of_first _ _ _ (by omega)
    rw [readPixel_of_forall_zero _ _ (fun p hp => List.eq_of_mem_replicate hp)]
    decide
  have hidx : buildRowIndex (List.replicate W 0) (W : Int) (1 : Int) (1 : Int) =
      ([0], [true]) := by
    unfold buildRowIndex
    simp only [ht, hr1, List.foldl_cons, List.foldl_nil]
    unfold rowIndexStep
    simp only [hE]
    rfl
  have hg : (ceilDiv (W : Int) (kPixelsPerBlock : Int)).toNat = 0 := Int.toNat_eq_zero.mpr hc
  have hbs : encodeBitstream (List.replicate W 0) (W : Int) (1 : Int) [true] = [] := by
    unfold encodeBitstream encodeRow
    simp only [ht, hg, hr1, List.range_zero, List.foldl_cons, List.foldl_nil]
    rfl
  unfold encode blackRow
  simp only
  rw [if_neg (by omega), h8, if_neg (by decide), hidx]
  simp only [hbs, Int.toNat_ofNat, ht]

theorem ceilDiv_four_intMax :
    ceilDiv ((2147483647 : Nat) : Int) (kPixelsPerBlock : Int) = -536870911 := by
  decide

theorem decode_tooSmall (init : Nat → Nat) (buf : List Nat) (h : buf.length < 19) :
    decode init (some buf) = .error .tooSmall := by
  unfold decode
  simp only [kHeaderSize]
  rw [if_pos h]

theorem decodeRowHead_br (rowIndex : List Nat) (W : Nat) (st : DecState) (y : Nat) :
    (decodeRowHead rowIndex W st y).1.br = st.br := by
  unfold decodeRowHead
  simp only
  split <;> rfl

theorem decodeRowHead_mem_congr (ri1 ri2 : List Nat) (W : Nat) (st1 st2 : DecState) (y : Nat)
    (hm : st1.mem = st2.mem)
    (hb : ri1.getD (y / kBitsPerByte) 0 = ri2.getD (y / kBitsPerByte) 0) :
    (decodeRowHead ri1 W st1 y).1.mem = (decodeRowHead ri2 W st2 y).1.mem := by
  unfold decodeRowHead
  simp only [hb, hm]
  split <;> simp [hm]

theorem foldl_decodeRowHead_mem_congr (ri1 ri2 : List Nat) (W : Nat) (l : List Nat) :
    ∀ st1 st2 : DecState, st1.mem = st2.mem →
      (∀ y ∈ l, ri1.getD (y / kBitsPerByte) 0 = ri2.getD (y / kBitsPerByte) 0) →
      (l.foldl (fun s y => (decodeRowHead ri1 W s y).1) st1).mem =
        (l.foldl (fun s y => (decodeRowHead ri2 W s y).1) st2).mem := by
  induction l with
  | nil => intro st1 st2 hm _; exact hm
  | cons y l ih =>
    intro st1 st2 hm hb
    rw [List.foldl_cons, List.foldl_cons]
    exact ih _ _ (decodeRowHead_mem_congr ri1 ri2 W st1 st2 y hm (hb y (List.mem_cons_self _ _)))
      (fun z hz => hb z (List.mem_cons_of_mem _ hz))

theorem decode_congr (init : Nat → Nat) (buf1 buf2 : List Nat)
    (hlen : buf1.length = buf2.length) (hhdr : buf1.take 19 = buf2.take 19)
    (hri : ∀ y, y < readLE32 buf1 7 →
      (buf1.drop 19).getD (y / kBitsPerByte) 0 = (buf2.drop 19).getD (y / kBitsPerByte) 0) :
    decode init (some buf1) = decode init (some buf2) := by
  by_cases h19 : buf1.length < 19
  · rw [decode_tooSmall init buf1 h19, decode_tooSmall init buf2 (by omega)]
  · have g0 := getD_eq_of_take_eq buf1 buf2 19 0 hhdr (by omega)
    have g1 := getD_eq_of_take_eq buf1 buf2 19 1 hhdr (by omega)
    have g2 := getD_eq_of_take_eq buf1 buf2 19 2 hhdr (by omega)
    have r3 := readLE32_eq_of_take_eq buf1 buf2 19 3 hhdr (by omega)
    have r7 := readLE32_eq_of_take_eq buf1 buf2 19 7 hhdr (by omega)
    have r11 := readLE32_eq_of_take_eq buf1 buf2 19 11 hhdr (by omega)
    have r15 := readLE32_eq_of_take_eq buf1 buf2 19 15 hhdr (by omega)
    by_cases hm : buf1.getD 0 0 ≠ 0x42 ∨ buf1.getD 1 0 ≠ 0x41
    · rw [decode_badMagic init buf1 (by omega) hm,
        decode_badMagic init buf2 (by omega) (by rw [← g0, ← g1]; exact hm)]
    · have hm0 : buf1.getD 0 0 = 0x42 := by
        by_contra hc; exact hm (Or.inl hc)
      have hm1 : buf1.getD 1 0 = 0x41 := by
        by_contra hc; exact hm (Or.inr hc)
      by_cases hv : buf1.getD 2 0 ≠ 0x01
      · rw [decode_badVersion init buf1 (by omega) hm0 hm1 hv,
          decode_badVersion init buf2 (by omega) (by rw [← g0]; exact hm0)
            (by rw [← g1]; exact hm1) (by rw [← g2]; exact hv)]
      · have hv1 : buf1.getD 2 0 = 0x01 := by
          by_contra hc; exact hv hc
        by_cases hn : buf1.length < 19 + readLE32 buf1 11 + readLE32 buf1 15
        · rw [decode_truncated init buf1 (by omega) hm0 hm1 hv1 hn,
            decode_truncated init buf2 (by omega) (by rw [← g0]; exact hm0)
              (by rw [← g1]; exact hm1) (by rw [← g2]; exact hv1)
              (by rw [← r11, ← r15, ← hlen]; exact hn)]
        · rw [decode_ok_of_header init buf1 (by omega) hm0 hm1 hv1 (by omega),
            decode_ok_of_header init buf2 (by omega) (by rw [← g0]; exact hm0)
              (by rw [← g1]; exact hm1) (by rw [← g2]; exact hv1)
              (by rw [← r11, ← r15, ← hlen]; omega)]
          rw [← r3, ← r7, ← r11, ← r15]
          rw [foldl_decodeRowHead_mem_congr (buf1.drop 19) (buf2.drop 19) (readLE32 buf1 3)
            (List.range (readLE32 buf1 7))
            (DecState.mk init (BitReader.mk ((buf1.drop 19).drop (readLE32 buf1 11))
              (readLE32 buf1 15) 0 0))
            (DecState.mk init (BitReader.mk ((buf2.drop 19).drop (readLE32 buf1 11))
              (readLE32 buf1 15) 0 0)) rfl (fun y hy => hri y (List.mem_range.mp hy))]

theorem rowIndex_getD_offset (buf : List Nat) (y : Nat) :
    (buf.drop kHeaderSize).getD (y / kBitsPerByte) 0 = buf.getD (rowIndexOffset y) 0 := by
  unfold rowIndexOffset
  simp only [List.getD_eq_getElem?_getD, List.getElem?_drop]

theorem decode_nineRowsFileA (init : Nat → Nat) :
    decode init (some nineRowsFileA) = .ok ⟨1, 9, some [init 0, init 1, init 2, init 3, init 4,
      init 5, init 6, init 7, init 8]⟩ := by
  rfl

theorem decode_nineRowsFileB (init : Nat → Nat) :
    decode init (some nineRowsFileB) = .ok ⟨1, 9, some [init 0, init 1, init 2, init 3, init 4,
      init 5, init 6, init 7, 255]⟩ := by
  rfl

theorem packMSB_ne_nil (bits : List Bool) (h : bits ≠ []) : packMSB bits ≠ [] := by
  intro hp
  have hl := length_packMSB bits
  rw [hp] at hl
  have : 0 < bits.length := List.length_pos.mpr h
  simp only [List.length_nil] at hl
  omega

theorem blackColumn_pixels (H : Nat) : ∀ q ∈ (blackColumn H).pixels, q = 0 := by
  intro q hq
  exact List.eq_of_mem_replicate hq

theorem uniformImage_valid (W H p : Nat) (hW : 0 < W) (hW2 : W < 2 ^ 31) (hH : 0 < H)
    (hH2 : H < 2 ^ 31) (hp : p < 256) : Valid (uniformImage W H p) := by
  unfold Valid uniformImage
  simp only [List.length_replicate]
  refine ⟨by exact_mod_cast hW, by exact_mod_cast hH, by exact_mod_cast hW2,
    by exact_mod_cast hH2, by push_cast; rfl, ?_⟩
  intro q hq
  rw [List.eq_of_mem_replicate hq]
  exact hp

theorem uniformImage_pixels (W H p : Nat) : ∀ q ∈ (uniformImage W H p).pixels, q = p := by
  intro q hq
  exact List.eq_of_mem_replicate hq

set_option maxRecDepth 100000 in
/-- Claim C1 fails on the code: `encode` maps the valid 1x1 images with pixel 0 and with
pixel 7 to `blackPixelFile` and `grayPixelFile`; `decode` succeeds on both files and returns,
for both, the 1x1 image whose pixel is the byte found in the fresh allocation, so that it
cannot reproduce both images, and reproduces neither when that byte is 255. -/
theorem decode_encode_not_identity :
    Valid blackPixel ∧ Valid grayPixel ∧
    encode blackPixel = .ok blackPixelFile ∧ encode grayPixel = .ok grayPixelFile ∧
    (∀ init, decode init (some blackPixelFile) = .ok ⟨1, 1, some [init 0]⟩) ∧
    (∀ init, decode init (some grayPixelFile) = .ok ⟨1, 1, some [init 0]⟩) ∧
    (∀ init, ¬ (decode init (some blackPixelFile) = .ok blackPixel ∧
      decode init (some grayPixelFile) = .ok grayPixel)) ∧
    decode (fun _ => 255) (some blackPixelFile) ≠ .ok blackPixel := by
  refine ⟨by decide, by decide, by decide, by decide, decode_blackPixelFile,
    decode_grayPixelFile, ?_, ?_⟩
  · intro init ⟨h1, h2⟩
    rw [decode_blackPixelFile] at h1
    rw [decode_grayPixelFile] at h2
    simp only [blackPixel, grayPixel, Except.ok.injEq, RawImageData.mk.injEq, Option.some.injEq,
      List.cons.injEq, and_true, true_and] at h1 h2
    omega
  · rw [decode_blackPixelFile]
    decide

/-- Counterexample to C3 as stated: for the valid image of width 1 and height 1010580541
whose pixels are all 0, on which no `int` computation of `encode` overflows, the bitstream
byte count field of the output of `encode` holds 4, while 4294967300 bitstream bytes follow
the 126322568 row-index bytes; on the valid image of width 1 and height 2147483647 whose
pixels are all 0, `height + 8` overflows and `encode` returns no byte at all: it throws
`std::length_error`; on the valid black image of width 65536 and height 32769, the row offset
`y * W` of row 32768 overflows and the row pointer is `data - 2^31`. -/
theorem encode_layout_counterexample :
    (Valid (blackColumn 1010580541) ∧ NoOverflow (blackColumn 1010580541) ∧
      ∃ out, encode (blackColumn 1010580541) = .ok out ∧
        (out.drop 15).take 4 = [4, 0, 0, 0] ∧
        out.length = 19 + 126322568 + 4294967300 ∧
        out.length ≠ 19 + 126322568 + 4) ∧
    (Valid (blackColumn 2147483647) ∧ ¬ NoOverflow (blackColumn 2147483647) ∧
      encode (blackColumn 2147483647) = .error .lengthError) ∧
    (Valid (uniformImage 65536 32769 0) ∧ ¬ NoOverflow (uniformImage 65536 32769 0) ∧
      32768 < (uniformImage 65536 32769 0).height.toNat ∧
      wrapInt (32768 * (uniformImage 65536 32769 0).width) = -2147483648) := by
  have hv : Valid (blackColumn 1010580541) :=
    blackColumn_valid 1010580541 (by norm_num) (by norm_num)
  obtain ⟨out, henc, hf, hl⟩ := encode_blackColumn 1010580541 (by norm_num) (by norm_num)
  have e1 : le32 ((34 * 1010580541 + 7) / 8 % 2 ^ 32) = [4, 0, 0, 0] := by decide
  have e2 : 19 + (1010580541 + 7) / 8 + (34 * 1010580541 + 7) / 8 =
      19 + 126322568 + 4294967300 := by norm_num
  rw [e1] at hf
  rw [e2] at hl
  refine ⟨⟨hv, blackColumn_noOverflow _ (by norm_num) (by norm_num), out, henc, hf, hl, ?_⟩,
    ⟨blackColumn_valid _ (by norm_num) (by norm_num), by decide,
      encode_blackColumn_overflow _ (by norm_num) ceilDiv_intMax⟩,
    ⟨uniformImage_valid _ _ _ (by norm_num) (by norm_num) (by norm_num) (by norm_num)
      (by norm_num), by decide, by decide, by decide⟩⟩
  rw [hl]
  norm_num

/-- Claim C3, as the code has it: on a valid image of width `W` and height `H` on which no
`int` computation of `encode` overflows, `encode` returns `'B'`, `'A'`, `0x01`, then `W`, `H`,
`R` and `D mod 2^32` as four little-endian 32-bit fields, then the `R = ceil(H / 8)` row-index
bytes, whose bit `b` of byte `j` is set exactly when `b < 8` and row `8 j + b` exists and is
entirely white, and then the `D` bitstream bytes, which are the packing of the bits of the
rows; the total length is `19 + R + D`. -/
theorem encode_layout (img : RawImageData) (h : Valid img) (hno : NoOverflow img) :
    ∃ ri out, encode img = .ok out ∧
      out = [0x42, 0x41, 0x01] ++ le32 img.width.toNat ++ le32 img.height.toNat ++
        le32 ri.length ++ le32 ((packMSB (specBits img)).length % 2 ^ 32) ++ ri ++
        packMSB (specBits img) ∧
      ri.length = (img.height.toNat + 7) / 8 ∧
      (∀ j b, (ri.getD j 0).testBit b =
        (decide (b < 8) && (decide (8 * j + b < img.height.toNat) &&
          rowWhite (img.row (8 * j + b))))) ∧
      out.length = 19 + ri.length + (packMSB (specBits img)).length := by
  obtain ⟨data, W, H, rfl, hW0, hH0, hlen, n1, n2, n3, henc⟩ := encode_valid img h hno
  have hR : H ≤ 8 * ((H + 7) / 8) := by omega
  have hL := buildRowIndex_length data (W : Int) H ((H + 7) / 8) hR
  refine ⟨_, _, henc, ?_, ?_, ?_, frame_length _ _ _ _⟩
  · rw [frame_eq]
    simp only [Int.toNat_ofNat]
    have h1 : W % 2 ^ 32 = W := Nat.mod_eq_of_lt (by omega)
    have h2 : H % 2 ^ 32 = H := Nat.mod_eq_of_lt (by omega)
    have h3 : (buildRowIndex data (W : Int) (H : Int) (((H + 7) / 8 : Nat) : Int)).1.length %
        2 ^ 32 = (buildRowIndex data (W : Int) (H : Int) (((H + 7) / 8 : Nat) : Int)).1.length :=
      Nat.mod_eq_of_lt (by rw [hL]; omega)
    rw [h1, h2, h3]
  · simp only [Int.toNat_ofNat]
    exact hL
  · intro j b
    simp only [Int.toNat_ofNat]
    rw [buildRowIndex_bits data W H _ hR, row_mk]
    by_cases hy : 8 * j + b < H
    · rw [wrapInt_mul _ W H hy n3,
        isRowEmpty_eq data _ W (row_in_bounds W H _ data.length hlen hy)]
    · simp [hy]

set_option maxRecDepth 100000 in
/-- Witness for C3 as amended: the 4x1 image `[0, 255, 10, 200]`. -/
theorem encode_layout_witness :
    (Valid mixedRow ∧ NoOverflow mixedRow) ∧ ∃ ri out, encode mixedRow = .ok out ∧
      out = [0x42, 0x41, 0x01] ++ le32 mixedRow.width.toNat ++ le32 mixedRow.height.toNat ++
        le32 ri.length ++ le32 ((packMSB (specBits mixedRow)).length % 2 ^ 32) ++ ri ++
        packMSB (specBits mixedRow) ∧
      ri.length = (mixedRow.height.toNat + 7) / 8 ∧
      (∀ j b, (ri.getD j 0).testBit b =
        (decide (b < 8) && (decide (8 * j + b < mixedRow.height.toNat) &&
          rowWhite (mixedRow.row (8 * j + b))))) ∧
      out.length = 19 + ri.length + (packMSB (specBits mixedRow)).length :=
  ⟨by decide, encode_layout mixedRow (by decide) (by decide)⟩

/-- Counterexample to C5 as stated: the image of width 2147483647 and height 1 whose pixels
are all 0 is valid and its row is not white; `width + 4` overflows,
`ceilDiv(W, kPixelsPerBlock)` is `-536870911`, the group loop of `encode` does not run, and
the output of `encode` is the 19-byte header and the row-index byte with no bitstream byte,
whereas the packing of the bits of the groups of the row is not empty. On the valid image of
width 1 and height 2147483647 whose pixels are all 7, `encode` throws `std::length_error`; on
the valid image of width 65536 and height 32769 whose pixels are all 7, the row offset
`y * W` of row 32768 overflows and the row pointer is `data - 2^31`. -/
theorem encode_bitstream_spec_counterexample :
    (Valid (blackRow 2147483647) ∧ ¬ NoOverflow (blackRow 2147483647) ∧
      ceilDiv (blackRow 2147483647).width (kPixelsPerBlock : Int) = -536870911 ∧
      19 + ((blackRow 2147483647).height.toNat + 7) / 8 = 20 ∧
      ∃ out, encode (blackRow 2147483647) = .ok out ∧
        out.length = 20 ∧ out.drop 20 = [] ∧
        out.drop 20 ≠ packMSB (specBits (blackRow 2147483647))) ∧
    (Valid (uniformColumn 2147483647 7) ∧ ¬ NoOverflow (uniformColumn 2147483647 7) ∧
      encode (uniformColumn 2147483647 7) = .error .lengthError) ∧
    (Valid (uniformImage 65536 32769 7) ∧ ¬ NoOverflow (uniformImage 65536 32769 7) ∧
      32768 < (uniformImage 65536 32769 7).height.toNat ∧
      wrapInt (32768 * (uniformImage 65536 32769 7).width) = -2147483648) := by
  have hc : ceilDiv ((2147483647 : Nat) : Int) (kPixelsPerBlock : Int) ≤ 0 := by
    rw [ceilDiv_four_intMax]
    decide
  have hne := packMSB_ne_nil _ (specBits_blackRow_ne_nil 2147483647 (by norm_num))
  refine ⟨⟨blackRow_valid _ (by norm_num) (by norm_num), by decide, by decide, rfl, _,
    encode_blackRow_overflow 2147483647 (by norm_num) hc, frame_length _ _ _ _,
    frame_drop_rowIndex _ _ [0] [], ?_⟩,
    ⟨uniformColumn_valid _ _ (by norm_num) (by norm_num) (by norm_num), by decide,
      encode_uniformColumn_overflow 2147483647 7 (by norm_num) ceilDiv_intMax⟩,
    ⟨uniformImage_valid _ _ _ (by norm_num) (by norm_num) (by norm_num) (by norm_num)
      (by norm_num), by decide, by decide, by decide⟩⟩
  rw [show (frame 2147483647 1 [0] []).drop 20 = [] from frame_drop_rowIndex _ _ [0] []]
  exact fun h => hne h.symm

set_option maxRecDepth 100000 in
/-- Claim C5, as the code has it: on a valid image on which no `int` computation of `encode`
overflows, the bitstream section of the output of `encode` (the bytes after the 19-byte
header and the `ceil(height / 8)` row-index bytes) is the MSB-first, zero-padded packing of
the bits of the rows that are not entirely white, in increasing `y`, each row contributing
the bits of its `ceil(width / 4)` groups (`0` for four pixels 255, `10` for four pixels 0,
else `11` and the four pixel bytes, the last group completed with 255); the 4x1 image
`[0, 255, 10, 200]` gives the bitstream `C0 3F C2 B2 00`. -/
theorem encode_bitstream_spec (img : RawImageData) (h : Valid img) (hno : NoOverflow img) :
    (∃ out, encode img = .ok out ∧
      out.drop (19 + (img.height.toNat + 7) / 8) = packMSB (specBits img)) ∧
    encode mixedRow = .ok ([0x42, 0x41, 0x01, 4, 0, 0, 0, 1, 0, 0, 0, 1, 0, 0, 0, 5, 0, 0, 0] ++
      [0x00] ++ [0xC0, 0x3F, 0xC2, 0xB2, 0x00]) := by
  refine ⟨?_, by decide⟩
  obtain ⟨data, W, H, rfl, hW0, hH0, hlen, n1, n2, n3, henc⟩ := encode_valid img h hno
  have hR : H ≤ 8 * ((H + 7) / 8) := by omega
  have hL := buildRowIndex_length data (W : Int) H ((H + 7) / 8) hR
  refine ⟨_, henc, ?_⟩
  simp only [Int.toNat_ofNat]
  have hd := frame_drop_rowIndex W H
    (buildRowIndex data (W : Int) (H : Int) (((H + 7) / 8 : Nat) : Int)).1
    (packMSB (specBits ⟨(W : Int), (H : Int), some data⟩))
  rw [hL] at hd
  exact hd

set_option maxRecDepth 100000 in
/-- Witness for C5 as amended: the 4x1 image `[0, 255, 10, 200]`. -/
theorem encode_bitstream_spec_witness :
    (Valid mixedRow ∧ NoOverflow mixedRow) ∧
    ((∃ out, encode mixedRow = .ok out ∧
      out.drop (19 + (mixedRow.height.toNat + 7) / 8) = packMSB (specBits mixedRow)) ∧
    encode mixedRow = .ok ([0x42, 0x41, 0x01, 4, 0, 0, 0, 1, 0, 0, 0, 1, 0, 0, 0, 5, 0, 0, 0] ++
      [0x00] ++ [0xC0, 0x3F, 0xC2, 0xB2, 0x00])) :=
  ⟨by decide, encode_bitstream_spec mixedRow (by decide) (by decide)⟩

set_option maxRecDepth 100000 in
/-- Claim C6 fails on the code: `exhaustedFile` passes the four header checks, declares
width 1, height 1 and an empty bitstream, and the emptiness bit of its row 0 is clear; yet
`decode` returns a 1x1 image, whose pixel is the byte found in the fresh allocation, instead
of failing. More generally `decode` returns an image for every buffer that passes the four
header checks, whatever its bitstream section holds. -/
theorem decode_exhausted_bitstream_succeeds :
    19 ≤ exhaustedFile.length ∧ exhaustedFile.getD 0 0 = 0x42 ∧ exhaustedFile.getD 1 0 = 0x41 ∧
    exhaustedFile.getD 2 0 = 0x01 ∧
    19 + readLE32 exhaustedFile 11 + readLE32 exhaustedFile 15 ≤ exhaustedFile.length ∧
    readLE32 exhaustedFile 3 = 1 ∧ readLE32 exhaustedFile 7 = 1 ∧
    readLE32 exhaustedFile 15 = 0 ∧
    (exhaustedFile.getD (19 + 0 / 8) 0).testBit (0 % 8) = false ∧
    (∀ init, decode init (some exhaustedFile) = .ok ⟨1, 1, some [init 0]⟩) ∧
    (∀ (init : Nat → Nat) (buf : List Nat), 19 ≤ buf.length → buf.getD 0 0 = 0x42 →
      buf.getD 1 0 = 0x41 → buf.getD 2 0 = 0x01 →
      19 + readLE32 buf 11 + readLE32 buf 15 ≤ buf.length →
      ∃ img, decode init (some buf) = .ok img) := by
  refine ⟨by decide, by decide, by decide, by decide, by decide, by decide, by decide,
    by decide, by decide, decode_exhaustedFile, ?_⟩
  intro init buf h19 hm0 hm1 hv hneed
  exact ⟨_, decode_ok_of_header init buf h19 hm0 hm1 hv hneed⟩

/-- Claim C7: a buffer of at least 19 bytes with magic `'B'`, `'A'` and version 1 whose
declared `19 + rowIndexByteCount + bitstreamByteCount` exceeds its length makes `decode` fail
with the truncated-file error; the outcome is the same for every buffer of that length with
the same 19 header bytes, whatever the bytes after the header and whatever the content of
the output allocation, so no row-index or bitstream byte takes part and no image is
produced. -/
theorem decode_truncated_file (init : Nat → Nat) (buf : List Nat) (h19 : 19 ≤ buf.length)
    (hm0 : buf.getD 0 0 = 0x42) (hm1 : buf.getD 1 0 = 0x41) (hv : buf.getD 2 0 = 0x01)
    (hneed : buf.length < 19 + readLE32 buf 11 + readLE32 buf 15) :
    decode init (some buf) = .error .truncated ∧
      ∀ (init2 : Nat → Nat) (buf2 : List Nat), buf2.length = buf.length →
        buf2.take 19 = buf.take 19 → decode init2 (some buf2) = .error .truncated := by
  refine ⟨decode_truncated init buf h19 hm0 hm1 hv hneed, ?_⟩
  intro init2 buf2 hl ht
  apply decode_truncated init2 buf2 (by omega)
  · rw [getD_eq_of_take_eq buf2 buf 19 0 ht (by omega)]; exact hm0
  · rw [getD_eq_of_take_eq buf2 buf 19 1 ht (by omega)]; exact hm1
  · rw [getD_eq_of_take_eq buf2 buf 19 2 ht (by omega)]; exact hv
  · rw [readLE32_eq_of_take_eq buf2 buf 19 11 ht (by omega),
      readLE32_eq_of_take_eq buf2 buf 19 15 ht (by omega), hl]
    exact hneed

set_option maxRecDepth 100000 in
/-- Witness for C7: the 20-byte file `truncatedFile`, which declares 25 bytes. -/
theorem decode_truncated_file_witness :
    (19 ≤ truncatedFile.length ∧ truncatedFile.getD 0 0 = 0x42 ∧ truncatedFile.getD 1 0 = 0x41 ∧
      truncatedFile.getD 2 0 = 0x01 ∧
      truncatedFile.length < 19 + readLE32 truncatedFile 11 + readLE32 truncatedFile 15) ∧
    (decode (fun _ => 0) (some truncatedFile) = .error .truncated ∧
      ∀ (init2 : Nat → Nat) (buf2 : List Nat), buf2.length = truncatedFile.length →
        buf2.take 19 = truncatedFile.take 19 → decode init2 (some buf2) = .error .truncated) :=
  ⟨by decide, decode_truncated_file (fun _ => 0) truncatedFile (by decide) (by decide)
    (by decide) (by decide) (by decide)⟩

/-- Claim C8: whenever `encode` returns an output, replacing byte 0 or byte 1 of it by a
different value makes `decode` fail with the bad-magic error, and every buffer of at least 19
bytes whose first two bytes are not `'B'`, `'A'` fails the same way, whatever its other bytes
are; `encode` returns an output on every valid image on which none of its `int` computations
overflows. -/
theorem decode_corrupted_magic (img : RawImageData) (i v : Nat) (hi : i < 2) :
    (∀ out, encode img = .ok out →
      (v ≠ out.getD i 0 → ∀ init, decode init (some (out.set i v)) = .error .badMagic) ∧
      (∀ init buf, 19 ≤ buf.length →
        (buf.getD 0 0 ≠ out.getD 0 0 ∨ buf.getD 1 0 ≠ out.getD 1 0) →
        decode init (some buf) = .error .badMagic)) ∧
    (Valid img → NoOverflow img → ∃ out, encode img = .ok out) := by
  refine ⟨?_, fun h hno => ?_⟩
  · intro out henc
    obtain ⟨ri, bs, hout⟩ := encode_ok_frame img out henc
    clear henc
    have hl := frame_length img.width.toNat img.height.toNat ri bs
    obtain ⟨hm0, hm1⟩ := frame_magic img.width.toNat img.height.toNat ri bs
    rw [← hout] at hl hm0 hm1
    clear hout
    refine ⟨?_, ?_⟩
    · intro hv init
      apply decode_badMagic
      · rw [List.length_set]; omega
      · have hi2 : i = 0 ∨ i = 1 := by omega
        rcases hi2 with rfl | rfl
        · left
          rw [getD_set_eq, if_pos ⟨rfl, by omega⟩]
          rw [hm0] at hv
          exact hv
        · right
          rw [getD_set_eq, if_pos ⟨rfl, by omega⟩]
          rw [hm1] at hv
          exact hv
    · intro init buf h19 hm
      rw [hm0, hm1] at hm
      exact decode_badMagic init buf h19 hm
  · obtain ⟨data, W, H, _, _, _, _, _, _, _, henc⟩ := encode_valid img h hno
    exact ⟨_, henc⟩

set_option maxRecDepth 100000 in
/-- Witness for C8: byte 1 of the encoding of the 4x1 image replaced by `0x00`. -/
theorem decode_corrupted_magic_witness :
    (Valid mixedRow ∧ NoOverflow mixedRow ∧ 1 < 2) ∧
    ∃ out, encode mixedRow = .ok out ∧
      (0 ≠ out.getD 1 0 → ∀ init, decode init (some (out.set 1 0)) = .error .badMagic) ∧
      (∀ init buf, 19 ≤ buf.length →
        (buf.getD 0 0 ≠ out.getD 0 0 ∨ buf.getD 1 0 ≠ out.getD 1 0) →
        decode init (some buf) = .error .badMagic) :=
  ⟨by decide,
    Exists.elim ((decode_corrupted_magic mixedRow 1 0 (by decide)).2 (by decide) (by decide))
      (fun out ho => ⟨out, ho, (decode_corrupted_magic mixedRow 1 0 (by decide)).1 out ho⟩)⟩

/-- Claim C9: a buffer of at least 19 bytes whose first two bytes are `'B'`, `'A'` and whose
byte at offset 2 is not 1 makes `decode` fail with the unsupported-version error, whatever
the other bytes are. -/
theorem decode_version_mismatch (init : Nat → Nat) (buf : List Nat) (h19 : 19 ≤ buf.length)
    (hm0 : buf.getD 0 0 = 0x42) (hm1 : buf.getD 1 0 = 0x41) (hv : buf.getD 2 0 ≠ 0x01) :
    decode init (some buf) = .error .unsupportedVersion :=
  decode_badVersion init buf h19 hm0 hm1 hv

/-- Witness for C9: the header `versionTwoFile`. -/
theorem decode_version_mismatch_witness :
    (19 ≤ versionTwoFile.length ∧ versionTwoFile.getD 0 0 = 0x42 ∧
      versionTwoFile.getD 1 0 = 0x41 ∧ versionTwoFile.getD 2 0 ≠ 0x01) ∧
    decode (fun _ => 0) (some versionTwoFile) = .error .unsupportedVersion :=
  ⟨by decide, decode_version_mismatch (fun _ => 0) versionTwoFile (by decide) (by decide)
    (by decide) (by decide)⟩

set_option maxRecDepth 100000 in
/-- Counterexample to C11 as stated: the 5x1 image whose pixels are all 0 is valid, no `int`
computation of `encode` overflows on it, and the bitstream of its encoding is one Black tag
followed by a Literal tag and the four bytes `00 FF FF FF` of the padded last group, not the
two Black tags of its two groups; on the valid image of width 1 and height 2147483647 whose
pixels are all 0, `height + 8` overflows and `encode` throws `std::length_error`; on the valid
black image of width 65536 and height 32769, the row offset `y * W` of row 32768 overflows
and the row pointer is `data - 2^31`. -/
theorem encode_allBlack_counterexample :
    (Valid black5x1 ∧ NoOverflow black5x1 ∧ (∀ p ∈ black5x1.pixels, p = 0) ∧
      ∃ out, encode black5x1 = .ok out ∧
        out.drop 20 = [0xB0, 0x0F, 0xFF, 0xFF, 0xF0] ∧
        out.drop 20 = packMSB ([true, false] ++ ([true, true] ++ byteBits 0 ++ byteBits 255 ++
          byteBits 255 ++ byteBits 255)) ∧
        out.drop 20 ≠ packMSB (blackTags 2)) ∧
    (Valid (blackColumn 2147483647) ∧ ¬ NoOverflow (blackColumn 2147483647) ∧
      (∀ p ∈ (blackColumn 2147483647).pixels, p = 0) ∧
      encode (blackColumn 2147483647) = .error .lengthError) ∧
    (Valid (uniformImage 65536 32769 0) ∧ ¬ NoOverflow (uniformImage 65536 32769 0) ∧
      (∀ p ∈ (uniformImage 65536 32769 0).pixels, p = 0) ∧
      32768 < (uniformImage 65536 32769 0).height.toNat ∧
      wrapInt (32768 * (uniformImage 65536 32769 0).width) = -2147483648) := by
  refine ⟨⟨by decide, by decide, by decide, _, (by decide : encode black5x1 = .ok
    ([0x42, 0x41, 0x01, 5, 0, 0, 0, 1, 0, 0, 0, 1, 0, 0, 0, 5, 0, 0, 0, 0x00,
      0xB0, 0x0F, 0xFF, 0xFF, 0xF0])), by decide, by decide, by decide⟩,
    ⟨blackColumn_valid _ (by norm_num) (by norm_num), by decide, blackColumn_pixels _,
      encode_blackColumn_overflow _ (by norm_num) ceilDiv_intMax⟩,
    ⟨uniformImage_valid _ _ _ (by norm_num) (by norm_num) (by norm_num) (by norm_num)
      (by norm_num), by decide, uniformImage_pixels _ _ _, by decide, by decide⟩⟩

set_option maxRecDepth 100000 in
/-- Claim C11, as the code has it: on a valid image whose pixels are all 0 and on which no
`int` computation of `encode` overflows, every byte of the row-index section of the output of
`encode` is 0, so every row-index bit is 0; when the width is a multiple of 4 the bitstream is
the packing of Black tags only, one per 4-pixel group of each row; for the 8x1 image the
bitstream is the single byte `A0`. -/
theorem encode_allBlack (img : RawImageData) (h : Valid img) (hno : NoOverflow img)
    (hb : ∀ p ∈ img.pixels, p = 0) :
    (∃ out, encode img = .ok out ∧
      (out.drop 19).take ((img.height.toNat + 7) / 8) =
        List.replicate ((img.height.toNat + 7) / 8) 0 ∧
      (img.width.toNat % 4 = 0 →
        out.drop (19 + (img.height.toNat + 7) / 8) =
          packMSB (blackTags (img.height.toNat * (img.width.toNat / 4))))) ∧
    encode black8x1 =
      .ok ([0x42, 0x41, 0x01, 8, 0, 0, 0, 1, 0, 0, 0, 1, 0, 0, 0, 1, 0, 0, 0] ++ [0x00] ++
        [0xA0]) := by
  refine ⟨?_, by decide⟩
  obtain ⟨data, W, H, rfl, hW0, hH0, hlen, n1, n2, n3, henc⟩ := encode_valid img h hno
  have hb2 : ∀ p ∈ data, p = 0 := hb
  have hR : H ≤ 8 * ((H + 7) / 8) := by omega
  have hL := buildRowIndex_length data (W : Int) H ((H + 7) / 8) hR
  have hri : (buildRowIndex data (W : Int) (H : Int) (((H + 7) / 8 : Nat) : Int)).1 =
      List.replicate ((H + 7) / 8) 0 := by
    apply buildRowIndex_of_nonEmpty
    intro y _
    apply isRowEmpty_of_first _ _ _ (by omega)
    rw [readPixel_of_forall_zero data _ hb2]
    norm_num
  have hsb := specBits_allBlack ⟨(W : Int), (H : Int), some data⟩ data rfl hlen hW0
  simp only [Int.toNat_ofNat] at hsb ⊢
  refine ⟨_, henc, ?_, ?_⟩
  · rw [frame_drop_header, hri, List.take_append_eq_append_take]
    simp
  · intro h4
    rw [← hsb h4 hb2]
    have hd := frame_drop_rowIndex W H
      (buildRowIndex data (W : Int) (H : Int) (((H + 7) / 8 : Nat) : Int)).1
      (packMSB (specBits ⟨(W : Int), (H : Int), some data⟩))
    rw [hL] at hd
    exact hd

set_option maxRecDepth 100000 in
/-- Witness for C11 as amended: the all-black 8x1 image. -/
theorem encode_allBlack_witness :
    (Valid black8x1 ∧ NoOverflow black8x1 ∧ ∀ p ∈ black8x1.pixels, p = 0) ∧
    ((∃ out, encode black8x1 = .ok out ∧
      (out.drop 19).take ((black8x1.height.toNat + 7) / 8) =
        List.replicate ((black8x1.height.toNat + 7) / 8) 0 ∧
      (black8x1.width.toNat % 4 = 0 →
        out.drop (19 + (black8x1.height.toNat + 7) / 8) =
          packMSB (blackTags (black8x1.height.toNat * (black8x1.width.toNat / 4))))) ∧
    encode black8x1 =
      .ok ([0x42, 0x41, 0x01, 8, 0, 0, 0, 1, 0, 0, 0, 1, 0, 0, 0, 1, 0, 0, 0] ++ [0x00] ++
        [0xA0])) :=
  ⟨⟨by decide, by decide, by decide⟩,
    encode_allBlack black8x1 (by decide) (by decide) (by decide)⟩

set_option maxRecDepth 100000 in
/-- Counterexample to C12 as stated: for the valid 5x1 image `[10, 20, 30, 40, 50]`, the last
group that `encode` classifies holds pixel 4 and 3 padding pixels 255, not 2, and `decode`
of the encoding returns the 5 bytes found in the fresh allocation: with an allocation full
of 255 every decoded byte is the padding value and the image is not reproduced. -/
theorem encode_decode_width_five_counterexample :
    Valid sampleFive ∧ (∀ p ∈ sampleFive.pixels, p ≠ 0 ∧ p ≠ 255) ∧
    encode sampleFive = .ok sampleFiveFile ∧
    groupPixel sampleFive.pixels 0 5 1 0 = 50 ∧ groupPixel sampleFive.pixels 0 5 1 1 = 255 ∧
    groupPixel sampleFive.pixels 0 5 1 2 = 255 ∧ groupPixel sampleFive.pixels 0 5 1 3 = 255 ∧
    (∀ init, decode init (some sampleFiveFile) =
      .ok ⟨5, 1, some [init 0, init 1, init 2, init 3, init 4]⟩) ∧
    decode (fun _ => 255) (some sampleFiveFile) = .ok ⟨5, 1, some [255, 255, 255, 255, 255]⟩ ∧
    decode (fun _ => 255) (some sampleFiveFile) ≠ .ok sampleFive := by
  refine ⟨by decide, by decide, by decide, by decide, by decide, by decide, by decide,
    decode_sampleFiveFile, decode_sampleFiveFile _, ?_⟩
  rw [decode_sampleFiveFile]
  decide

/-- Claim C12, as the code has it: for a valid single-row image of width 5 whose pixels are
all neither 0 nor 255, the bitstream of the output of `encode` is two Literal groups, the
first with pixels 0 to 3 and the second with pixel 4 followed by 3 white (255) padding
pixels; `decode` of that output has width 5, height 1 and a buffer of exactly 5 bytes. -/
theorem encode_decode_width_five (img : RawImageData) (h : Valid img) (hw : img.width = 5)
    (hh : img.height = 1) (hp : ∀ p ∈ img.pixels, p ≠ 0 ∧ p ≠ 255) :
    ∃ out, encode img = .ok out ∧
      out.drop 20 = packMSB (literalBits (img.pixels.take 4) ++
        literalBits [img.pixels.getD 4 0, 255, 255, 255]) ∧
      groupPixel img.pixels 0 5 1 0 = img.pixels.getD 4 0 ∧
      groupPixel img.pixels 0 5 1 1 = 255 ∧ groupPixel img.pixels 0 5 1 2 = 255 ∧
      groupPixel img.pixels 0 5 1 3 = 255 ∧
      ∀ init, ∃ data, decode init (some out) = .ok ⟨5, 1, some data⟩ ∧ data.length = 5 := by
  rcases img with ⟨w, ht, d⟩
  simp only at hw hh
  subst hw hh
  cases d with
  | none => exact absurd h (by simp [Valid])
  | some data =>
    have hlen : data.length = 5 := by
      have := h
      simp only [Valid] at this
      have h5 := this.2.2.2.2.1
      omega
    match data, hlen with
    | [p0, p1, p2, p3, p4], _ =>
      have h0 := hp p0 (by simp [RawImageData.pixels])
      have h4 := hp p4 (by simp [RawImageData.pixels])
      refine ⟨_, encode_five p0 p1 p2 p3 p4 h0 h4 h, ?_, rfl, rfl, rfl, rfl, ?_⟩
      · rw [List.drop_left' (by rfl)]
        rfl
      · intro init
        refine ⟨_, decode_fiveHeader init _ ?_, rfl⟩
        rw [length_packMSB, List.length_append, length_literalBits, length_literalBits]

set_option maxRecDepth 100000 in
/-- Witness for C12 as amended: the 5x1 image `[10, 20, 30, 40, 50]`. -/
theorem encode_decode_width_five_witness :
    (Valid sampleFive ∧ sampleFive.width = 5 ∧ sampleFive.height = 1 ∧
      ∀ p ∈ sampleFive.pixels, p ≠ 0 ∧ p ≠ 255) ∧
    ∃ out, encode sampleFive = .ok out ∧
      out.drop 20 = packMSB (literalBits (sampleFive.pixels.take 4) ++
        literalBits [sampleFive.pixels.getD 4 0, 255, 255, 255]) ∧
      groupPixel sampleFive.pixels 0 5 1 0 = sampleFive.pixels.getD 4 0 ∧
      groupPixel sampleFive.pixels 0 5 1 1 = 255 ∧ groupPixel sampleFive.pixels 0 5 1 2 = 255 ∧
      groupPixel sampleFive.pixels 0 5 1 3 = 255 ∧
      ∀ init, ∃ data, decode init (some out) = .ok ⟨5, 1, some data⟩ ∧ data.length = 5 :=
  ⟨by decide, encode_decode_width_five sampleFive (by decide) (by decide) (by decide)
    (by decide)⟩

set_option maxRecDepth 100000 in
/-- Counterexample to C13 as stated: `nineRowsFileA` and `nineRowsFileB` have the same
length, the same 19-byte header (height 9, one row-index byte) and the same row-index
section; they differ in the bitstream byte only, which `decode` reads as the row-index byte
of row 8, and `decode` fills row 8 with 255 for the second file and not for the first. -/
theorem decode_ignores_bitstream_counterexample :
    nineRowsFileA.length = nineRowsFileB.length ∧
    nineRowsFileA.take 19 = nineRowsFileB.take 19 ∧
    readLE32 nineRowsFileA 11 = 1 ∧
    (nineRowsFileA.drop 19).take (readLE32 nineRowsFileA 11) =
      (nineRowsFileB.drop 19).take (readLE32 nineRowsFileA 11) ∧
    19 + readLE32 nineRowsFileA 11 ≤ rowIndexOffset 8 ∧
    decode (fun _ => 0) (some nineRowsFileA) = .ok ⟨1, 9, some [0, 0, 0, 0, 0, 0, 0, 0, 0]⟩ ∧
    decode (fun _ => 0) (some nineRowsFileB) = .ok ⟨1, 9, some [0, 0, 0, 0, 0, 0, 0, 0, 255]⟩ ∧
    decode (fun _ => 0) (some nineRowsFileA) ≠ decode (fun _ => 0) (some nineRowsFileB) := by
  refine ⟨by decide, by decide, by decide, by decide, by decide, decode_nineRowsFileA _,
    decode_nineRowsFileB _, ?_⟩
  rw [decode_nineRowsFileA, decode_nineRowsFileB]
  decide

/-- Claim C13, as the code has it: two buffers of equal length that agree on the 19-byte
header and on the declared row-index section, the declared `rowIndexByteCount` being at
least `ceil(height / 8)`, give the same outcome of `decode` (the same error, or the same
image for the same content of the fresh allocation); the body of the row loop always leaves
at the `continue`, before the tag-decoding loop, and never advances the bit reader. -/
theorem decode_ignores_bitstream (buf1 buf2 : List Nat) (hlen : buf1.length = buf2.length)
    (hhdr : buf1.take 19 = buf2.take 19)
    (hsec : (buf1.drop 19).take (readLE32 buf1 11) = (buf2.drop 19).take (readLE32 buf1 11))
    (hR : (readLE32 buf1 7 + 7) / 8 ≤ readLE32 buf1 11) :
    (∀ init, decode init (some buf1) = decode init (some buf2)) ∧
    (∀ (rowIndex : List Nat) (W : Nat) (st : DecState) (y : Nat),
      decodeRow rowIndex W st y = .ok (decodeRowHead rowIndex W st y).1 ∧
      (decodeRowHead rowIndex W st y).2 = Flow.continue_ ∧
      (decodeRowHead rowIndex W st y).1.br = st.br) := by
  refine ⟨?_, fun rowIndex W st y => ⟨decodeRow_ok rowIndex W st y, rfl,
    decodeRowHead_br rowIndex W st y⟩⟩
  intro init
  apply decode_congr init buf1 buf2 hlen hhdr
  intro y hy
  apply getD_eq_of_take_eq _ _ (readLE32 buf1 11) _ hsec
  unfold kBitsPerByte
  omega

set_option maxRecDepth 100000 in
/-- Witness for C13 as amended: the encodings of the 1x1 images with pixel 0 and pixel 7. -/
theorem decode_ignores_bitstream_witness :
    (blackPixelFile.length = grayPixelFile.length ∧
      blackPixelFile.take 19 = grayPixelFile.take 19 ∧
      (blackPixelFile.drop 19).take (readLE32 blackPixelFile 11) =
        (grayPixelFile.drop 19).take (readLE32 blackPixelFile 11) ∧
      (readLE32 blackPixelFile 7 + 7) / 8 ≤ readLE32 blackPixelFile 11) ∧
    ((∀ init, decode init (some blackPixelFile) = decode init (some grayPixelFile)) ∧
    (∀ (rowIndex : List Nat) (W : Nat) (st : DecState) (y : Nat),
      decodeRow rowIndex W st y = .ok (decodeRowHead rowIndex W st y).1 ∧
      (decodeRowHead rowIndex W st y).2 = Flow.continue_ ∧
      (decodeRowHead rowIndex W st y).1.br = st.br)) :=
  ⟨by decide, decode_ignores_bitstream blackPixelFile grayPixelFile (by decide) (by decide)
    (by decide) (by decide)⟩

set_option maxRecDepth 100000 in
/-- Counterexample to C14 as stated: on a fresh writer, `putBits(1, 33)` followed by
`finish()` returns `80 00 00 00 80`; the 33 lowest bits of the value 1, most significant
first, are 32 zero bits and a one bit, whose packing is `00 00 00 00 80`: bit 0 of the written
sequence is 0 and bit 7 of byte 0 is 1, the shift by 32 of the 32-bit value having given the
value itself. -/
theorem bitWriter_packing_counterexample :
    runCalls [WriterCall.putBits 1 33] = [0x80, 0, 0, 0, 0x80] ∧
    writtenBits [WriterCall.putBits 1 33] = List.replicate 32 false ++ [true] ∧
    packMSB (writtenBits [WriterCall.putBits 1 33]) = [0, 0, 0, 0, 0x80] ∧
    0 < (writtenBits [WriterCall.putBits 1 33]).length ∧
    (writtenBits [WriterCall.putBits 1 33]).getD 0 false = false ∧
    ((runCalls [WriterCall.putBits 1 33]).getD (0 / 8) 0).testBit (7 - 0 % 8) = true := by
  decide

/-- Claim C14, as the code has it: for every sequence of `putBit`, `putBits(v, n)` and
`putByte` calls on a fresh `BitWriter` in which every `putBits(v, n)` has `n <= 32`, writing
`t` bits in total, `finish()` returns exactly `ceil(t / 8)` bytes; bit `i` of the written
sequence is bit `7 - i mod 8` of byte `i div 8`, and the bits of the last byte after the
written sequence are 0. -/
theorem bitWriter_packing (calls : List WriterCall)
    (hn : ∀ v n, WriterCall.putBits v n ∈ calls → n ≤ 32) :
    (runCalls calls).length = ((writtenBits calls).length + 7) / 8 ∧
    (∀ i, i < (writtenBits calls).length →
      ((runCalls calls).getD (i / 8) 0).testBit (7 - i % 8) = (writtenBits calls).getD i false) ∧
    (∀ i, (writtenBits calls).length ≤ i → i < 8 * (runCalls calls).length →
      ((runCalls calls).getD (i / 8) 0).testBit (7 - i % 8) = false) ∧
    (∀ x ∈ runCalls calls, x < 256) := by
  rw [runCalls_eq calls hn]
  have hl := length_packMSB (writtenBits calls)
  refine ⟨hl, ?_, ?_, packMSB_lt _⟩
  · intro i hi
    exact packMSB_testBit _ i (by rw [hl]; omega)
  · intro i hi h8
    rw [packMSB_testBit _ i h8, List.getD_eq_getElem?_getD, List.getElem?_eq_none hi]
    rfl

/-- Witness for C14 as amended: `putBit(1)`, `putBits(5, 3)`, `putBits(0xDEADBEEF, 32)` and
`putByte(200)`. -/
theorem bitWriter_packing_witness :
    (∀ v n, WriterCall.putBits v n ∈ [WriterCall.putBit 1, WriterCall.putBits 5 3,
      WriterCall.putBits 0xDEADBEEF 32, WriterCall.putByte 200] → n ≤ 32) ∧
    ((runCalls [WriterCall.putBit 1, WriterCall.putBits 5 3,
      WriterCall.putBits 0xDEADBEEF 32, WriterCall.putByte 200]).length =
        ((writtenBits [WriterCall.putBit 1, WriterCall.putBits 5 3,
          WriterCall.putBits 0xDEADBEEF 32, WriterCall.putByte 200]).length + 7) / 8 ∧
    (∀ i, i < (writtenBits [WriterCall.putBit 1, WriterCall.putBits 5 3,
        WriterCall.putBits 0xDEADBEEF 32, WriterCall.putByte 200]).length →
      ((runCalls [WriterCall.putBit 1, WriterCall.putBits 5 3,
        WriterCall.putBits 0xDEADBEEF 32, WriterCall.putByte 200]).getD (i / 8) 0).testBit
          (7 - i % 8) =
        (writtenBits [WriterCall.putBit 1, WriterCall.putBits 5 3,
          WriterCall.putBits 0xDEADBEEF 32, WriterCall.putByte 200]).getD i false) ∧
    (∀ i, (writtenBits [WriterCall.putBit 1, WriterCall.putBits 5 3,
        WriterCall.putBits 0xDEADBEEF 32, WriterCall.putByte 200]).length ≤ i →
      i < 8 * (runCalls [WriterCall.putBit 1, WriterCall.putBits 5 3,
        WriterCall.putBits 0xDEADBEEF 32, WriterCall.putByte 200]).length →
      ((runCalls [WriterCall.putBit 1, WriterCall.putBits 5 3,
        WriterCall.putBits 0xDEADBEEF 32, WriterCall.putByte 200]).getD (i / 8) 0).testBit
          (7 - i % 8) = false) ∧
    (∀ x ∈ runCalls [WriterCall.putBit 1, WriterCall.putBits 5 3,
      WriterCall.putBits 0xDEADBEEF 32, WriterCall.putByte 200], x < 256)) := by
  have hn : ∀ v n, WriterCall.putBits v n ∈ [WriterCall.putBit 1, WriterCall.putBits 5 3,
      WriterCall.putBits 0xDEADBEEF 32, WriterCall.putByte 200] → n ≤ 32 := by
    intro v n h
    simp only [List.mem_cons, WriterCall.putBits.injEq, reduceCtorEq, List.mem_singleton,
      false_or, or_false, List.mem_nil_iff] at h
    omega
  exact ⟨hn, bitWriter_packing _ hn⟩

set_option maxRecDepth 100000 in
/-- Claim C15 fails on the code: `overreadFile` passes the four header checks of `decode` and
declares height 1 and no row-index byte; for row 0 the row loop reads the byte at offset 19,
which is neither inside the declared row-index section nor inside the 19-byte buffer.
`decode` returns an image all the same, and a byte appended at offset 19 decides whether
row 0 is filled with 255. For every buffer whose declared `rowIndexByteCount` is below
`ceil(height / 8)`, the read for the last row lies after the declared row-index section. -/
theorem decode_rowIndex_read_out_of_bounds :
    19 ≤ overreadFile.length ∧ overreadFile.getD 0 0 = 0x42 ∧ overreadFile.getD 1 0 = 0x41 ∧
    overreadFile.getD 2 0 = 0x01 ∧
    19 + readLE32 overreadFile 11 + readLE32 overreadFile 15 ≤ overreadFile.length ∧
    0 < readLE32 overreadFile 7 ∧
    (∀ (buf : List Nat) (y : Nat),
      (buf.drop kHeaderSize).getD (y / kBitsPerByte) 0 = buf.getD (rowIndexOffset y) 0) ∧
    rowIndexOffset 0 = 19 ∧
    ¬ rowIndexOffset 0 < 19 + readLE32 overreadFile 11 ∧
    ¬ rowIndexOffset 0 < overreadFile.length ∧
    (∀ init, decode init (some overreadFile) = .ok ⟨1, 1, some [init 0]⟩) ∧
    (∀ init, decode init (some (overreadFile ++ [0x01])) = .ok ⟨1, 1, some [255]⟩) ∧
    (∀ buf : List Nat, readLE32 buf 11 < (readLE32 buf 7 + 7) / 8 →
      readLE32 buf 7 - 1 < readLE32 buf 7 ∧
      19 + readLE32 buf 11 ≤ rowIndexOffset (readLE32 buf 7 - 1)) := by
  refine ⟨by decide, by decide, by decide, by decide, by decide, by decide,
    rowIndex_getD_offset, by decide, by decide, by decide, fun init => rfl, fun init => rfl, ?_⟩
  intro buf h
  unfold rowIndexOffset kHeaderSize kBitsPerByte
  omega

end Barch
